import Mathlib

set_option maxHeartbeats 1000000
set_option maxRecDepth 10000

/-!
Shallow embedding of the WebP encoder in `src/src/codecs/webp/encoder.rs`,
together with proofs about its bit packer, Huffman-tree serialisation,
lossless frame assembly, container framing and validation behaviour.

Machine integers are modelled as `Nat` with explicit `% 2 ^ w` where
overflow matters; byte buffers are `List Nat`; fallible paths return
`Except`; panic sites are modelled by `Option`-valued checked variants.
-/

deriving instance DecidableEq for Except

/-- Color descriptors of the surrounding image layer.  Modelled from the
spec: `ColorType` is declared by the crate outside `src/`; the lossless path
supports `L8`, `La8`, `Rgb8`, `Rgba8` (spec section 4.3) and the remaining
variants exist only to be rejected as unsupported. -/
inductive ColorType where
  | L8 | La8 | Rgb8 | Rgba8
  | L16 | La16 | Rgb16 | Rgba16 | Rgb32F | Rgba32F
  deriving DecidableEq, Repr

/-- Modelled from the spec: channel counts 1, 2, 3, 4 for `L8`, `La8`,
`Rgb8`, `Rgba8` (spec section 4.3); the remaining variants carry the crate's
usual channel counts and are rejected by both encoder paths. -/
def ColorType.channel_count : ColorType → Nat
  | .L8 => 1 | .La8 => 2 | .Rgb8 => 3 | .Rgba8 => 4
  | .L16 => 1 | .La16 => 2 | .Rgb16 => 3 | .Rgba16 => 4
  | .Rgb32F => 3 | .Rgba32F => 4

/-- Error values surfaced by the encoder (`ImageError::Parameter` with
`DimensionMismatch`, `ImageError::Unsupported` with a color kind, and
`ImageError::Encoding`).  Sink I/O errors cannot occur for the in-memory
sink modelled here (`Vec<u8>` writes are infallible). -/
inductive ImageError where
  | dimensionMismatch
  | unsupportedColor (c : ColorType)
  | encodingFailed
  deriving DecidableEq, Repr

/-- The private `Quality` enum (src lines 30-34); the lossy payload is a u8. -/
inductive Quality where
  | Lossless
  | Lossy (q : Nat)
  deriving DecidableEq, Repr

/-- The public `WebPQuality` wrapper (src line 28). -/
structure WebPQuality where
  q : Quality
  deriving DecidableEq, Repr

def WebPQuality.MIN : Nat := 0

def WebPQuality.MAX : Nat := 100

def WebPQuality.DEFAULT : Nat := 80

/-- `WebPQuality::lossless()` (src lines 45-47). -/
def WebPQuality.lossless : WebPQuality := ⟨Quality.Lossless⟩

/-- The function `WebPQuality::lossy(quality)` (src lines 52-54): the u8
argument (hence the `% 256`) is clamped to `[MIN, MAX]`. -/
def WebPQuality.lossy (quality : Nat) : WebPQuality :=
  ⟨Quality.Lossy (min (max (quality % 256) WebPQuality.MIN) WebPQuality.MAX)⟩

/-- The `Default for WebPQuality` impl (src lines 57-61). -/
def WebPQuality.default : WebPQuality := WebPQuality.lossy WebPQuality.DEFAULT

/-- The `WebPEncoder` state (src lines 17-24).  The sink `inner : W` is
modelled by returning the written bytes from `encode`. -/
structure WebPEncoder where
  quality : WebPQuality
  chunk_buffer : List Nat
  buffer : Nat
  nbits : Nat
  deriving DecidableEq, Repr

/-- `WebPEncoder::new_with_quality` (src lines 72-80). -/
def WebPEncoder.new_with_quality (quality : WebPQuality) : WebPEncoder :=
  { quality := quality, chunk_buffer := [], buffer := 0, nbits := 0 }

/-- `WebPEncoder::new` (src lines 67-69). -/
def WebPEncoder.new : WebPEncoder :=
  WebPEncoder.new_with_quality WebPQuality.default

/-- Little-endian bytes of a u64, as in `u64::to_le_bytes`. -/
def toLeBytes64 (x : Nat) : List Nat :=
  [x % 256, x / 256 % 256, x / 256 ^ 2 % 256, x / 256 ^ 3 % 256,
   x / 256 ^ 4 % 256, x / 256 ^ 5 % 256, x / 256 ^ 6 % 256, x / 256 ^ 7 % 256]

/-- Little-endian bytes of a u32, as in `u32::to_le_bytes`. -/
def toLeBytes32 (x : Nat) : List Nat :=
  [x % 256, x / 256 % 256, x / 256 ^ 2 % 256, x / 256 ^ 3 % 256]

/-- The bit packer write (src lines 82-95).  The `bits` argument is a u64
(hence the leading mask); `self.buffer |= bits << self.nbits` is u64
arithmetic (hence `% 2 ^ 64`); `checked_shr` returns `None` exactly when the
shift amount is 64 (only possible for `self.nbits = 0`), in which case the
source substitutes 0, which agrees with the plain `Nat` shift because
`bits < 2 ^ 64`.  The u8 counter arithmetic cannot overflow on any reachable
state (`self.nbits < 64` throughout, see the checked variant below). -/
def WebPEncoder.write_bits (self : WebPEncoder) (bits nbits : Nat) : WebPEncoder :=
  let bits := bits % 2 ^ 64
  let buffer := (self.buffer ||| bits <<< self.nbits) % 2 ^ 64
  let nbits1 := self.nbits + nbits
  if 64 ≤ nbits1 then
    { self with
      chunk_buffer := self.chunk_buffer ++ toLeBytes64 buffer
      nbits := nbits1 - 64
      buffer := bits >>> (nbits - (nbits1 - 64)) }
  else
    { self with buffer := buffer, nbits := nbits1 }

/-- The bit packer flush (src lines 97-109). -/
def WebPEncoder.flush (self : WebPEncoder) : WebPEncoder :=
  let self := if self.nbits % 8 ≠ 0 then self.write_bits 0 (8 - self.nbits % 8) else self
  if 0 < self.nbits then
    { self with
      chunk_buffer := self.chunk_buffer ++ (toLeBytes64 self.buffer).take (self.nbits / 8)
      buffer := 0
      nbits := 0 }
  else self

/-- `write_single_entry_huffman_tree` (src lines 111-121). -/
def WebPEncoder.write_single_entry_huffman_tree (self : WebPEncoder) (symbol : Nat) :
    WebPEncoder :=
  let self := self.write_bits 1 2
  if symbol ≤ 1 then
    (self.write_bits 0 1).write_bits symbol 1
  else
    (self.write_bits 1 1).write_bits symbol 8

/-- `write_flat_huffman_tree` (src lines 123-139). -/
def WebPEncoder.write_flat_huffman_tree (self : WebPEncoder) : WebPEncoder :=
  let self := self.write_bits 0 1
  let self := self.write_bits 8 4
  let self := (List.range 11).foldl (fun s _ => s.write_bits 0 3) self
  let self := self.write_bits 1 3
  let self := self.write_bits 1 1
  let self := self.write_bits 3 3
  self.write_bits 254 8

/-- Modelled from the spec: `SampleLayout::row_major_packed(channels, width,
height).fits(len)` lives in `crate::flat`, outside `src/`; the spec
(section 4.3) requires `pixel_bytes.len()` to exactly equal
`width * height * channel_count`. -/
def row_major_packed_fits (channels width height len : Nat) : Prop :=
  len = width * height * channels

instance (c w h l : Nat) : Decidable (row_major_packed_fits c w h l) := by
  unfold row_major_packed_fits; infer_instance

/-- Bit reversal of a byte, as in `u8::reverse_bits` (most significant bit
of the low byte becomes least significant). -/
def reverse_bits (b : Nat) : Nat :=
  b / 1 % 2 * 128 + b / 2 % 2 * 64 + b / 4 % 2 * 32 + b / 8 % 2 * 16 +
  b / 16 % 2 * 8 + b / 32 % 2 * 4 + b / 64 % 2 * 2 + b / 128 % 2 * 1

/-- The `(is_color, is_alpha)` match of `encode_lossless` (src lines 154-167);
`none` is the `return Err(Unsupported)` arm. -/
def colorModes : ColorType → Option (Bool × Bool)
  | .L8 => some (false, false)
  | .La8 => some (false, true)
  | .Rgb8 => some (true, false)
  | .Rgba8 => some (true, true)
  | _ => none

/-- The `ColorType::L8` image-data loop (src lines 206-210). -/
def WebPEncoder.writeImageDataL8 : WebPEncoder → List Nat → WebPEncoder
  | s, pixel :: rest => WebPEncoder.writeImageDataL8 (s.write_bits (reverse_bits pixel) 8) rest
  | s, [] => s

/-- The `ColorType::La8` image-data loop over `chunks_exact(2)`
(src lines 211-216); a trailing partial pixel is ignored by `chunks_exact`. -/
def WebPEncoder.writeImageDataLa8 : WebPEncoder → List Nat → WebPEncoder
  | s, p0 :: p1 :: rest =>
      WebPEncoder.writeImageDataLa8
        ((s.write_bits (reverse_bits p0) 8).write_bits (reverse_bits p1) 8) rest
  | s, _ => s

/-- The `ColorType::Rgb8` image-data loop over `chunks_exact(3)`
(src lines 217-223): green, then red, then blue. -/
def WebPEncoder.writeImageDataRgb8 : WebPEncoder → List Nat → WebPEncoder
  | s, p0 :: p1 :: p2 :: rest =>
      WebPEncoder.writeImageDataRgb8
        (((s.write_bits (reverse_bits p1) 8).write_bits (reverse_bits p0) 8).write_bits
          (reverse_bits p2) 8) rest
  | s, _ => s

/-- The `ColorType::Rgba8` image-data loop over `chunks_exact(4)`
(src lines 224-231): green, red, blue, alpha. -/
def WebPEncoder.writeImageDataRgba8 : WebPEncoder → List Nat → WebPEncoder
  | s, p0 :: p1 :: p2 :: p3 :: rest =>
      WebPEncoder.writeImageDataRgba8
        ((((s.write_bits (reverse_bits p1) 8).write_bits (reverse_bits p0) 8).write_bits
            (reverse_bits p2) 8).write_bits (reverse_bits p3) 8) rest
  | s, _ => s

/-- The image-data match of `encode_lossless` (src lines 204-233).  The
wildcard arm is `unreachable!()` in the source; here it returns the state
unchanged, and the checked variant below models the panic. -/
def WebPEncoder.writeImageData (self : WebPEncoder) (color : ColorType) (buf : List Nat) :
    WebPEncoder :=
  match color with
  | .L8 => self.writeImageDataL8 buf
  | .La8 => self.writeImageDataLa8 buf
  | .Rgb8 => self.writeImageDataRgb8 buf
  | .Rgba8 => self.writeImageDataRgba8 buf
  | _ => self

/-- The huffman-codes block of `encode_lossless` (src lines 188-202). -/
def WebPEncoder.writeHuffmanSection (self : WebPEncoder) (is_color is_alpha : Bool) :
    WebPEncoder :=
  let self := self.write_flat_huffman_tree
  let self :=
    if is_color then
      self.write_flat_huffman_tree.write_flat_huffman_tree
    else
      (self.write_single_entry_huffman_tree 0).write_single_entry_huffman_tree 0
  let self :=
    if is_alpha then self.write_flat_huffman_tree
    else self.write_single_entry_huffman_tree 255
  self.write_single_entry_huffman_tree 0

/-- The bitstream body of `encode_lossless` between validation and container
framing (src lines 169-235): header, transform/cache/meta flags, the five
huffman trees, the image data, and the final `flush`. -/
def WebPEncoder.losslessBody (self : WebPEncoder) (data : List Nat) (width height : Nat)
    (color : ColorType) (is_color is_alpha : Bool) : WebPEncoder :=
  let s := self.write_bits 0x2f 8
  let s := s.write_bits (width - 1) 14
  let s := s.write_bits (height - 1) 14
  let s := s.write_bits (if is_alpha then 1 else 0) 1
  let s := s.write_bits 0 3
  let s := if !is_color then s.write_bits 5 3 else s
  let s := s.write_bits 0 1
  let s := s.write_bits 0 1
  let s := s.write_bits 0 1
  let s := s.writeHuffmanSection is_color is_alpha
  let s := s.writeImageData color data
  s.flush

/-- `encode_lossless` (src lines 141-250).  The result carries the bytes
written to the sink on success; every error is returned before any sink
write, so an error result corresponds to zero bytes written.  The two
`as u32` casts on the chunk length are the `% 2 ^ 32` masks. -/
def WebPEncoder.encode_lossless (self : WebPEncoder) (data : List Nat) (width height : Nat)
    (color : ColorType) : Except ImageError (List Nat) :=
  if width = 0 ∨ 16383 < width ∨ height = 0 ∨ 16383 < height ∨
      ¬ row_major_packed_fits color.channel_count width height data.length then
    Except.error ImageError.dimensionMismatch
  else
    match colorModes color with
    | none => Except.error (ImageError.unsupportedColor color)
    | some (is_color, is_alpha) =>
      let s := self.losslessBody data width height color is_color is_alpha
      let s :=
        if s.chunk_buffer.length % 2 = 1 then
          { s with chunk_buffer := s.chunk_buffer ++ [0] }
        else s
      Except.ok
        ([82, 73, 70, 70] ++ toLeBytes32 ((s.chunk_buffer.length % 2 ^ 32 + 12) % 2 ^ 32) ++
          [87, 69, 66, 80] ++ [86, 80, 56, 76] ++ toLeBytes32 (s.chunk_buffer.length % 2 ^ 32) ++
          s.chunk_buffer)

/-- The `PixelLayout` handed to the external encoder on the lossy path. -/
inductive PixelLayout where
  | Rgb | Rgba
  deriving DecidableEq, Repr

/-- Modelled from the spec: the external native encoder behind the lossy
path (spec section 4.4), an opaque collaborator mapping the pixel buffer,
layout, width, height and quality mode to an output byte sequence, where an
empty result signals failure.  It is a parameter of the embedding. -/
def NativeEncoder : Type :=
  List Nat → PixelLayout → Nat → Nat → Quality → List Nat

/-- The layout match of the lossy path (src lines 267-278); `none` is the
`return Err(Unsupported)` arm. -/
def lossyLayout : ColorType → Option PixelLayout
  | .Rgb8 => some PixelLayout.Rgb
  | .Rgba8 => some PixelLayout.Rgba
  | _ => none

/-- The lossy tail of `encode` (src lines 266-307): layout selection, the
dimension/buffer validation (note: no upper bound on the dimensions here),
the call into the external encoder, and the empty-output check. -/
def WebPEncoder.lossyEncode (native : NativeEncoder) (self : WebPEncoder) (data : List Nat)
    (width height : Nat) (color : ColorType) : Except ImageError (List Nat) :=
  match lossyLayout color with
  | none => Except.error (ImageError.unsupportedColor color)
  | some layout =>
    if width = 0 ∨ height = 0 ∨
        ¬ row_major_packed_fits color.channel_count width height data.length then
      Except.error ImageError.dimensionMismatch
    else
      let encoded := native data layout width height self.quality.q
      if encoded = [] then Except.error ImageError.encodingFailed
      else Except.ok encoded

/-- `encode` (src lines 255-308): `if let Quality::Lossless = self.quality`
returns through `encode_lossless`, otherwise the lossy tail runs. -/
def WebPEncoder.encode (native : NativeEncoder) (self : WebPEncoder) (data : List Nat)
    (width height : Nat) (color : ColorType) : Except ImageError (List Nat) :=
  match self.quality.q with
  | Quality.Lossless => self.encode_lossless data width height color
  | Quality.Lossy _ => self.lossyEncode native data width height color

/-- Bytes that reach the sink: the successful output, or nothing (all error
returns in the source occur before any sink write). -/
def sinkBytes : Except ImageError (List Nat) → List Nat
  | Except.ok bs => bs
  | Except.error _ => []

/-! ### Claim-side descriptions of the emitted bitstream -/

/-- Run a list of `(value, width)` writes through the bit packer. -/
def writesFold (self : WebPEncoder) (ws : List (Nat × Nat)) : WebPEncoder :=
  ws.foldl (fun s p => s.write_bits p.1 p.2) self

/-- Total number of bits described by a list of `(value, width)` writes. -/
def totalWidth (ws : List (Nat × Nat)) : Nat := (ws.map Prod.snd).sum

/-- Numeric value of the LSB-first concatenation of the low `width` bits of
each `value`: earlier writes occupy less significant bit positions. -/
def concatVal : List (Nat × Nat) → Nat
  | [] => 0
  | (v, w) :: rest => v % 2 ^ w + 2 ^ w * concatVal rest

/-- The `n` little-endian base-256 digits of `x`. -/
def leListBytes : Nat → Nat → List Nat
  | 0, _ => []
  | n + 1, x => x % 256 :: leListBytes n (x / 256)

/-- Round a bit count up to the next byte boundary (zero padding). -/
def pad8 (n : Nat) : Nat := n + (8 - n % 8) % 8

/-- The byte sequence described by the bit-packer contract: the LSB-first
concatenation of the low `width` bits of each value, zero-padded to a byte
boundary, rendered as bytes. -/
def paddedStreamBytes (ws : List (Nat × Nat)) : List Nat :=
  leListBytes (pad8 (totalWidth ws) / 8) (concatVal ws)

/-- Little-endian value of a byte list. -/
def lv : List Nat → Nat
  | [] => 0
  | b :: bs => b + 256 * lv bs

/-- Number of bits the packer state logically holds. -/
def streamLen (s : WebPEncoder) : Nat := 8 * s.chunk_buffer.length + s.nbits

/-- Numeric value of the bits the packer state logically holds (chunk bytes
in the low positions, then the accumulator). -/
def streamVal (s : WebPEncoder) : Nat :=
  lv s.chunk_buffer + s.buffer * 2 ^ (8 * s.chunk_buffer.length)

/-- The bit packer invariant: fewer than 64 held bits, accumulator bits
above the held count clear, chunk bytes in range. -/
def PackerInv (s : WebPEncoder) : Prop :=
  s.nbits < 64 ∧ s.buffer < 2 ^ s.nbits ∧ ∀ b ∈ s.chunk_buffer, b < 256

/-- Claim-side single-entry tree descriptor (spec section 4.2): 2-bit tag
`01`, then either a direct 1-bit symbol or a literal flag and 8-bit symbol. -/
def singleEntryWrites (symbol : Nat) : List (Nat × Nat) :=
  (1, 2) :: (if symbol ≤ 1 then [(0, 1), (symbol, 1)] else [(1, 1), (symbol, 8)])

/-- Claim-side flat tree descriptor: tag 0, 4-bit value 8, eleven 3-bit
zeros, one 3-bit value 1, a 1-bit flag 1, a 3-bit value 3, an 8-bit
value 254. -/
def flatTreeWrites : List (Nat × Nat) :=
  [(0, 1), (8, 4)] ++ List.replicate 11 (0, 3) ++ [(1, 3), (1, 1), (3, 3), (254, 8)]

def greenTreeWrites : List (Nat × Nat) := flatTreeWrites

def redTreeWrites (is_color : Bool) : List (Nat × Nat) :=
  if is_color then flatTreeWrites else singleEntryWrites 0

def blueTreeWrites (is_color : Bool) : List (Nat × Nat) :=
  if is_color then flatTreeWrites else singleEntryWrites 0

def alphaTreeWrites (is_alpha : Bool) : List (Nat × Nat) :=
  if is_alpha then flatTreeWrites else singleEntryWrites 255

def distanceTreeWrites : List (Nat × Nat) := singleEntryWrites 0

/-- Claim-side huffman section: exactly five descriptors, in the fixed
order green, red, blue, alpha, distance. -/
def treeSectionWrites (is_color is_alpha : Bool) : List (Nat × Nat) :=
  List.flatten [greenTreeWrites, redTreeWrites is_color, blueTreeWrites is_color,
    alphaTreeWrites is_alpha, distanceTreeWrites]

/-- Claim-side pixel payload for `L8`: the luminance byte, bit-reversed, in
the green slot; no red or blue payload bits. -/
def payloadWritesL8 : List Nat → List (Nat × Nat)
  | p :: rest => (reverse_bits p, 8) :: payloadWritesL8 rest
  | [] => []

/-- Claim-side pixel payload for `La8`: luminance (green slot) then alpha,
each bit-reversed; no red or blue payload bits. -/
def payloadWritesLa8 : List Nat → List (Nat × Nat)
  | p0 :: p1 :: rest => (reverse_bits p0, 8) :: (reverse_bits p1, 8) :: payloadWritesLa8 rest
  | _ => []

/-- Claim-side pixel payload for `Rgb8`: per pixel, input byte index 1
(green) first, then index 0 (red), then index 2 (blue), bit-reversed. -/
def payloadWritesRgb8 : List Nat → List (Nat × Nat)
  | p0 :: p1 :: p2 :: rest =>
      (reverse_bits p1, 8) :: (reverse_bits p0, 8) :: (reverse_bits p2, 8) ::
        payloadWritesRgb8 rest
  | _ => []

/-- Claim-side pixel payload for `Rgba8`: per pixel, input byte indices
1, 0, 2, 3 (green, red, blue, alpha), bit-reversed. -/
def payloadWritesRgba8 : List Nat → List (Nat × Nat)
  | p0 :: p1 :: p2 :: p3 :: rest =>
      (reverse_bits p1, 8) :: (reverse_bits p0, 8) :: (reverse_bits p2, 8) ::
        (reverse_bits p3, 8) :: payloadWritesRgba8 rest
  | _ => []

/-- Claim-side pixel payload per color descriptor. -/
def payloadWrites (color : ColorType) (buf : List Nat) : List (Nat × Nat) :=
  match color with
  | .L8 => payloadWritesL8 buf
  | .La8 => payloadWritesLa8 buf
  | .Rgb8 => payloadWritesRgb8 buf
  | .Rgba8 => payloadWritesRgba8 buf
  | _ => []

/-- Claim-side header writes of the lossless bitstream (spec section 4.3). -/
def headerWrites (width height : Nat) (is_color is_alpha : Bool) : List (Nat × Nat) :=
  [(0x2f, 8), (width - 1, 14), (height - 1, 14), ((if is_alpha then 1 else 0), 1), (0, 3)] ++
    (if !is_color then [(5, 3)] else []) ++ [(0, 1), (0, 1), (0, 1)]

/-- All `(value, width)` writes a lossless encode performs, in order. -/
def losslessWrites (data : List Nat) (width height : Nat) (color : ColorType)
    (is_color is_alpha : Bool) : List (Nat × Nat) :=
  headerWrites width height is_color is_alpha ++ treeSectionWrites is_color is_alpha ++
    payloadWrites color data

/-- Claim-side container framing: `RIFF` tag, little-endian `n + 12`, `WEBP`
tag, `VP8L` tag, little-endian `n`, then the `n` sub-chunk bytes. -/
def riffContainer (chunk : List Nat) : List Nat :=
  [82, 73, 70, 70] ++ toLeBytes32 (chunk.length + 12) ++ [87, 69, 66, 80] ++
    [86, 80, 56, 76] ++ toLeBytes32 chunk.length ++ chunk

/-- Claim-side padding of the flushed packer output to even length. -/
def padIfOdd (chunk : List Nat) : List Nat :=
  if chunk.length % 2 = 1 then chunk ++ [0] else chunk

/-! ### Checked variants modelling the panic sites

Each checked function returns `none` exactly when a panic site of the
corresponding source function would trigger, and otherwise behaves as the
plain variant. -/

/-- Checked `write_bits`.  Panic sites: `debug_assert!(nbits <= 64)`; the
shift `bits << self.nbits` (requires `self.nbits < 64`); the u8 addition
`self.nbits += nbits` (requires `self.nbits + nbits ≤ 255`, implied by the
first two); the trailing `debug_assert!(self.nbits < 64)` (implied, see
`write_bits_nbits_lt`); `checked_shr` handles its own overflow. -/
def WebPEncoder.write_bitsC (self : WebPEncoder) (bits nbits : Nat) : Option WebPEncoder :=
  if nbits ≤ 64 ∧ self.nbits < 64 then some (self.write_bits bits nbits) else none

/-- Checked `flush`.  Additional panic site: the slice
`to_le_bytes()[..nbits / 8]` requires `nbits / 8 ≤ 8`. -/
def WebPEncoder.flushC (self : WebPEncoder) : Option WebPEncoder := do
  let s ← if self.nbits % 8 ≠ 0 then self.write_bitsC 0 (8 - self.nbits % 8) else some self
  if 0 < s.nbits then
    if s.nbits / 8 ≤ 8 then
      some { s with
        chunk_buffer := s.chunk_buffer ++ (toLeBytes64 s.buffer).take (s.nbits / 8)
        buffer := 0
        nbits := 0 }
    else none
  else some s

/-- Checked `write_single_entry_huffman_tree`. -/
def WebPEncoder.write_single_entry_huffman_treeC (self : WebPEncoder) (symbol : Nat) :
    Option WebPEncoder := do
  let s ← self.write_bitsC 1 2
  if symbol ≤ 1 then do
    let s ← s.write_bitsC 0 1
    s.write_bitsC symbol 1
  else do
    let s ← s.write_bitsC 1 1
    s.write_bitsC symbol 8

/-- Checked `write_flat_huffman_tree`. -/
def WebPEncoder.write_flat_huffman_treeC (self : WebPEncoder) : Option WebPEncoder := do
  let s ← self.write_bitsC 0 1
  let s ← s.write_bitsC 8 4
  let s ← (List.range 11).foldlM (fun t _ => t.write_bitsC 0 3) s
  let s ← s.write_bitsC 1 3
  let s ← s.write_bitsC 1 1
  let s ← s.write_bitsC 3 3
  s.write_bitsC 254 8

/-- Checked `L8` image-data loop. -/
def WebPEncoder.writeImageDataL8C : WebPEncoder → List Nat → Option WebPEncoder
  | s, pixel :: rest => do
      let s ← s.write_bitsC (reverse_bits pixel) 8
      WebPEncoder.writeImageDataL8C s rest
  | s, [] => some s

/-- Checked `La8` image-data loop. -/
def WebPEncoder.writeImageDataLa8C : WebPEncoder → List Nat → Option WebPEncoder
  | s, p0 :: p1 :: rest => do
      let s ← s.write_bitsC (reverse_bits p0) 8
      let s ← s.write_bitsC (reverse_bits p1) 8
      WebPEncoder.writeImageDataLa8C s rest
  | s, _ => some s

/-- Checked `Rgb8` image-data loop. -/
def WebPEncoder.writeImageDataRgb8C : WebPEncoder → List Nat → Option WebPEncoder
  | s, p0 :: p1 :: p2 :: rest => do
      let s ← s.write_bitsC (reverse_bits p1) 8
      let s ← s.write_bitsC (reverse_bits p0) 8
      let s ← s.write_bitsC (reverse_bits p2) 8
      WebPEncoder.writeImageDataRgb8C s rest
  | s, _ => some s

/-- Checked `Rgba8` image-data loop. -/
def WebPEncoder.writeImageDataRgba8C : WebPEncoder → List Nat → Option WebPEncoder
  | s, p0 :: p1 :: p2 :: p3 :: rest => do
      let s ← s.write_bitsC (reverse_bits p1) 8
      let s ← s.write_bitsC (reverse_bits p0) 8
      let s ← s.write_bitsC (reverse_bits p2) 8
      let s ← s.write_bitsC (reverse_bits p3) 8
      WebPEncoder.writeImageDataRgba8C s rest
  | s, _ => some s

/-- Checked image-data dispatch; the wildcard arm models `unreachable!()`. -/
def WebPEncoder.writeImageDataC (self : WebPEncoder) (color : ColorType) (buf : List Nat) :
    Option WebPEncoder :=
  match color with
  | .L8 => self.writeImageDataL8C buf
  | .La8 => self.writeImageDataLa8C buf
  | .Rgb8 => self.writeImageDataRgb8C buf
  | .Rgba8 => self.writeImageDataRgba8C buf
  | _ => none

/-- Checked huffman section. -/
def WebPEncoder.writeHuffmanSectionC (self : WebPEncoder) (is_color is_alpha : Bool) :
    Option WebPEncoder := do
  let s ← self.write_flat_huffman_treeC
  let s ←
    if is_color then do
      let s ← s.write_flat_huffman_treeC
      s.write_flat_huffman_treeC
    else do
      let s ← s.write_single_entry_huffman_treeC 0
      s.write_single_entry_huffman_treeC 0
  let s ←
    if is_alpha then s.write_flat_huffman_treeC
    else s.write_single_entry_huffman_treeC 255
  s.write_single_entry_huffman_treeC 0

/-- Checked lossless body (the `width as u64 - 1` subtractions cannot
overflow: this code runs only after validation forces `width, height ≥ 1`). -/
def WebPEncoder.losslessBodyC (self : WebPEncoder) (data : List Nat) (width height : Nat)
    (color : ColorType) (is_color is_alpha : Bool) : Option WebPEncoder := do
  let s ← self.write_bitsC 0x2f 8
  let s ← s.write_bitsC (width - 1) 14
  let s ← s.write_bitsC (height - 1) 14
  let s ← s.write_bitsC (if is_alpha then 1 else 0) 1
  let s ← s.write_bitsC 0 3
  let s ← if !is_color then s.write_bitsC 5 3 else some s
  let s ← s.write_bitsC 0 1
  let s ← s.write_bitsC 0 1
  let s ← s.write_bitsC 0 1
  let s ← s.writeHuffmanSectionC is_color is_alpha
  let s ← s.writeImageDataC color data
  s.flushC

/-- Checked `encode_lossless`: `none` means some panic site of the source
function would trigger. -/
def WebPEncoder.encode_losslessC (self : WebPEncoder) (data : List Nat) (width height : Nat)
    (color : ColorType) : Option (Except ImageError (List Nat)) :=
  if width = 0 ∨ 16383 < width ∨ height = 0 ∨ 16383 < height ∨
      ¬ row_major_packed_fits color.channel_count width height data.length then
    some (Except.error ImageError.dimensionMismatch)
  else
    match colorModes color with
    | none => some (Except.error (ImageError.unsupportedColor color))
    | some (is_color, is_alpha) => do
      let s ← self.losslessBodyC data width height color is_color is_alpha
      let s :=
        if s.chunk_buffer.length % 2 = 1 then
          { s with chunk_buffer := s.chunk_buffer ++ [0] }
        else s
      some (Except.ok
        ([82, 73, 70, 70] ++ toLeBytes32 ((s.chunk_buffer.length % 2 ^ 32 + 12) % 2 ^ 32) ++
          [87, 69, 66, 80] ++ [86, 80, 56, 76] ++ toLeBytes32 (s.chunk_buffer.length % 2 ^ 32) ++
          s.chunk_buffer))

/-- Checked `encode`: the lossy tail contains no panic site (slices,
subtractions and casts do not occur there), so it is the plain function. -/
def WebPEncoder.encodeC (native : NativeEncoder) (self : WebPEncoder) (data : List Nat)
    (width height : Nat) (color : ColorType) : Option (Except ImageError (List Nat)) :=
  match self.quality.q with
  | Quality.Lossless => self.encode_losslessC data width height color
  | Quality.Lossy _ => some (self.lossyEncode native data width height color)

/-- A concrete external encoder that always reports failure (returns the
empty byte sequence); used to instantiate closed statements about the lossy
path. -/
def emptyNativeEncoder : NativeEncoder := fun _ _ _ _ _ => []

/-! Byte/value helper lemmas -/

theorem lor_mul_two_pow (k v a : Nat) (h : a < 2 ^ k) : a ||| v * 2 ^ k = a + v * 2 ^ k := by
  induction k generalizing a v with
  | zero =>
    interval_cases a
    simp
  | succ k ih =>
    have hsplit : (2 : Nat) ^ (k + 1) = 2 * 2 ^ k := by rw [pow_succ]; ring
    have hvv : v * 2 ^ (k + 1) = 2 * (v * 2 ^ k) := by rw [hsplit]; ring
    have ha : Nat.bit (decide (a % 2 = 1)) (a >>> 1) = a :=
      Nat.bit_decide_mod_two_eq_one_shiftRight_one a
    have hv2 : v * 2 ^ (k + 1) = Nat.bit false (v * 2 ^ k) := by
      simp [Nat.bit_val, hvv]
    have ha2 : a >>> 1 < 2 ^ k := by
      rw [Nat.shiftRight_one]; omega
    conv_lhs => rw [← ha, hv2]
    rw [Nat.lor_bit, ih _ _ ha2]
    rcases Nat.mod_two_eq_zero_or_one a with h0 | h0 <;>
      simp [Nat.bit_val, Nat.shiftRight_one, h0, hvv] <;> omega

theorem leListBytes_length (n x : Nat) : (leListBytes n x).length = n := by
  induction n generalizing x with
  | zero => simp [leListBytes]
  | succ n ih => simp [leListBytes, ih]

theorem leListBytes_lt (n x : Nat) : ∀ b ∈ leListBytes n x, b < 256 := by
  induction n generalizing x with
  | zero => simp [leListBytes]
  | succ n ih =>
    intro b hb
    simp [leListBytes] at hb
    rcases hb with h | h
    · omega
    · exact ih _ b h

theorem lv_leListBytes (n x : Nat) : lv (leListBytes n x) = x % 256 ^ n := by
  induction n generalizing x with
  | zero => simp [leListBytes, lv, Nat.mod_one]
  | succ n ih =>
    simp only [leListBytes, lv, ih]
    rw [pow_succ, mul_comm (256 ^ n) 256, Nat.mod_mul]

theorem leListBytes_take (k n x : Nat) :
    (leListBytes n x).take k = leListBytes (min k n) x := by
  induction n generalizing k x with
  | zero => simp [leListBytes]
  | succ n ih =>
    cases k with
    | zero => simp [leListBytes]
    | succ k => simp [leListBytes, ih, Nat.succ_min_succ]

theorem lv_append (a b : List Nat) : lv (a ++ b) = lv a + 256 ^ a.length * lv b := by
  induction a with
  | nil => simp [lv]
  | cons x t ih => simp [lv, ih]; ring

theorem eq_leListBytes_self (l : List Nat) (h : ∀ b ∈ l, b < 256) :
    l = leListBytes l.length (lv l) := by
  induction l with
  | nil => simp [leListBytes]
  | cons b t ih =>
    have hb : b < 256 := h b (by simp)
    have h1 : (b + 256 * lv t) % 256 = b := by omega
    have h2 : (b + 256 * lv t) / 256 = lv t := by omega
    simp only [lv, leListBytes, List.length_cons, h1, h2]
    exact congrArg (List.cons b) (ih fun x hx => h x (by simp [hx]))

theorem toLeBytes64_eq (x : Nat) : toLeBytes64 x = leListBytes 8 x := by
  simp [toLeBytes64, leListBytes, Nat.div_div_eq_div_mul]

theorem lv_toLeBytes64 (x : Nat) : lv (toLeBytes64 x) = x % 2 ^ 64 := by
  rw [toLeBytes64_eq, lv_leListBytes]
  norm_num

theorem toLeBytes64_length (x : Nat) : (toLeBytes64 x).length = 8 := rfl

theorem toLeBytes64_lt (x : Nat) : ∀ b ∈ toLeBytes64 x, b < 256 := by
  simp [toLeBytes64]; omega

theorem pow256_eq (n : Nat) : (256 : Nat) ^ n = 2 ^ (8 * n) := by
  rw [show (256 : Nat) = 2 ^ 8 by norm_num, ← pow_mul]

/-! The bit-packer step lemma -/

theorem write_bits_spec (s : WebPEncoder) (v w : Nat) (hs : PackerInv s) (hw : w ≤ 64)
    (hv : v < 2 ^ w) :
    PackerInv (s.write_bits v w) ∧
    streamLen (s.write_bits v w) = streamLen s + w ∧
    streamVal (s.write_bits v w) = streamVal s + v * 2 ^ streamLen s := by
  obtain ⟨h64, hbuf, hbytes⟩ := hs
  have hv64 : v < 2 ^ 64 := lt_of_lt_of_le hv (Nat.pow_le_pow_right (by norm_num) hw)
  have hmask : v % 2 ^ 64 = v := Nat.mod_eq_of_lt hv64
  have hbor : s.buffer ||| v <<< s.nbits = s.buffer + v * 2 ^ s.nbits := by
    rw [Nat.shiftLeft_eq]; exact lor_mul_two_pow _ _ _ hbuf
  have hXlt : s.buffer + v * 2 ^ s.nbits < 2 ^ (s.nbits + w) := by
    calc s.buffer + v * 2 ^ s.nbits < (v + 1) * 2 ^ s.nbits := by
          have := Nat.two_pow_pos s.nbits; nlinarith
    _ ≤ 2 ^ w * 2 ^ s.nbits := Nat.mul_le_mul_right _ (by omega)
    _ = 2 ^ (s.nbits + w) := by rw [← pow_add]; ring_nf
  simp only [WebPEncoder.write_bits, hmask, hbor]
  by_cases hc : 64 ≤ s.nbits + w
  · rw [if_pos hc]
    have hd : w - (s.nbits + w - 64) = 64 - s.nbits := by omega
    rw [hd, Nat.shiftRight_eq_div_pow]
    have hdpos : (0 : Nat) < 2 ^ (64 - s.nbits) := Nat.two_pow_pos _
    have h2 : 2 ^ (64 - s.nbits) * 2 ^ s.nbits = 2 ^ 64 := by
      rw [← pow_add]; congr 1; omega
    have hvsplit : v = 2 ^ (64 - s.nbits) * (v / 2 ^ (64 - s.nbits)) + v % 2 ^ (64 - s.nbits) :=
      (Nat.div_add_mod v _).symm
    have hrlt : v % 2 ^ (64 - s.nbits) < 2 ^ (64 - s.nbits) := Nat.mod_lt _ hdpos
    have hsmall : s.buffer + v % 2 ^ (64 - s.nbits) * 2 ^ s.nbits < 2 ^ 64 := by
      calc s.buffer + v % 2 ^ (64 - s.nbits) * 2 ^ s.nbits
          < (v % 2 ^ (64 - s.nbits) + 1) * 2 ^ s.nbits := by
            have := Nat.two_pow_pos s.nbits; nlinarith
      _ ≤ 2 ^ (64 - s.nbits) * 2 ^ s.nbits := Nat.mul_le_mul_right _ (by omega)
      _ = 2 ^ 64 := h2
    have hXsplit : s.buffer + v * 2 ^ s.nbits =
        (s.buffer + v % 2 ^ (64 - s.nbits) * 2 ^ s.nbits) +
          v / 2 ^ (64 - s.nbits) * 2 ^ 64 := by
      conv_lhs => rw [hvsplit]
      rw [← h2]; ring
    have hmod : (s.buffer + v * 2 ^ s.nbits) % 2 ^ 64 =
        s.buffer + v % 2 ^ (64 - s.nbits) * 2 ^ s.nbits := by
      rw [hXsplit, Nat.add_mul_mod_self_right, Nat.mod_eq_of_lt hsmall]
    have hqlt : v / 2 ^ (64 - s.nbits) < 2 ^ (s.nbits + w - 64) := by
      apply Nat.div_lt_of_lt_mul
      calc v < 2 ^ w := hv
      _ = 2 ^ (64 - s.nbits) * 2 ^ (s.nbits + w - 64) := by rw [← pow_add]; congr 1; omega
    refine ⟨⟨by simp; omega, by simpa using hqlt, ?_⟩, ?_, ?_⟩
    · intro b hb
      simp at hb
      rcases hb with h | h
      · exact hbytes b h
      · exact toLeBytes64_lt _ b h
    · simp [streamLen, toLeBytes64_length]
      omega
    · simp only [streamVal, lv_append, lv_toLeBytes64, toLeBytes64_length, List.length_append,
        hmod, streamLen]
      rw [Nat.mod_eq_of_lt hsmall]
      rw [pow256_eq]
      have hexp : (2 : Nat) ^ (8 * (s.chunk_buffer.length + 8)) =
          2 ^ (8 * s.chunk_buffer.length) * (2 ^ (64 - s.nbits) * 2 ^ s.nbits) := by
        rw [h2, ← pow_add]; congr 1
      have hexp2 : (2 : Nat) ^ (8 * s.chunk_buffer.length + s.nbits) =
          2 ^ (8 * s.chunk_buffer.length) * 2 ^ s.nbits := pow_add 2 _ _
      rw [hexp, hexp2]
      conv_rhs => rw [hvsplit]
      ring
  · rw [if_neg hc]
    have hXlt64 : s.buffer + v * 2 ^ s.nbits < 2 ^ 64 :=
      lt_of_lt_of_le hXlt (Nat.pow_le_pow_right (by norm_num) (by omega))
    rw [Nat.mod_eq_of_lt hXlt64]
    refine ⟨⟨by simp; omega, by simpa using hXlt, by simpa using hbytes⟩, ?_, ?_⟩
    · simp [streamLen]; omega
    · simp only [streamVal, streamLen]
      rw [pow_add]
      ring

/-! Flush and fold lemmas -/

theorem flush_spec (s : WebPEncoder) (hs : PackerInv s) :
    PackerInv s.flush ∧ s.flush.nbits = 0 ∧
    streamLen s.flush = pad8 (streamLen s) ∧ streamVal s.flush = streamVal s := by
  obtain ⟨h64, hbuf, hbytes⟩ := hs
  have hstage : ∀ s1 : WebPEncoder, PackerInv s1 → s1.nbits % 8 = 0 →
      PackerInv (if 0 < s1.nbits then
        { s1 with
          chunk_buffer := s1.chunk_buffer ++ (toLeBytes64 s1.buffer).take (s1.nbits / 8)
          buffer := 0
          nbits := 0 } else s1) ∧
      (if 0 < s1.nbits then
        { s1 with
          chunk_buffer := s1.chunk_buffer ++ (toLeBytes64 s1.buffer).take (s1.nbits / 8)
          buffer := 0
          nbits := 0 } else s1).nbits = 0 ∧
      streamLen (if 0 < s1.nbits then
        { s1 with
          chunk_buffer := s1.chunk_buffer ++ (toLeBytes64 s1.buffer).take (s1.nbits / 8)
          buffer := 0
          nbits := 0 } else s1) = streamLen s1 ∧
      streamVal (if 0 < s1.nbits then
        { s1 with
          chunk_buffer := s1.chunk_buffer ++ (toLeBytes64 s1.buffer).take (s1.nbits / 8)
          buffer := 0
          nbits := 0 } else s1) = streamVal s1 := by
    intro s1 hInv i8
    obtain ⟨i64, ibuf, ibytes⟩ := hInv
    by_cases hpos : 0 < s1.nbits
    · simp only [if_pos hpos]
      have hk8 : s1.nbits / 8 ≤ 8 := by omega
      have htake : (toLeBytes64 s1.buffer).take (s1.nbits / 8) =
          leListBytes (s1.nbits / 8) s1.buffer := by
        rw [toLeBytes64_eq, leListBytes_take]
        congr 1
        omega
      have hbufval : s1.buffer % 256 ^ (s1.nbits / 8) = s1.buffer := by
        apply Nat.mod_eq_of_lt
        calc s1.buffer < 2 ^ s1.nbits := ibuf
        _ ≤ 256 ^ (s1.nbits / 8) := by
            rw [pow256_eq]
            apply Nat.pow_le_pow_right (by norm_num)
            omega
      refine ⟨⟨by simp, by simp, ?_⟩, by simp, ?_, ?_⟩
      · intro b hb
        simp [htake] at hb
        rcases hb with h | h
        · exact ibytes b h
        · exact leListBytes_lt _ _ b h
      · simp [streamLen, htake, leListBytes_length]
        omega
      · have hb2 : s1.nbits / 8 * 8 = s1.nbits := by omega
        have hb3 : 8 * (s1.nbits / 8) = s1.nbits := by omega
        simp [streamVal, htake, lv_append, lv_leListBytes, leListBytes_length, pow256_eq,
          hb2, hb3, Nat.mod_eq_of_lt ibuf, Nat.mul_comm]
    · simp only [if_neg hpos]
      exact ⟨⟨i64, ibuf, ibytes⟩, by omega, by simp, by simp⟩
  unfold WebPEncoder.flush
  by_cases hpad : s.nbits % 8 ≠ 0
  · rw [if_pos hpad]
    have hw : 8 - s.nbits % 8 ≤ 64 := by omega
    have hv : (0 : Nat) < 2 ^ (8 - s.nbits % 8) := Nat.two_pow_pos _
    obtain ⟨pInv, pLen, pVal⟩ := write_bits_spec s 0 (8 - s.nbits % 8) ⟨h64, hbuf, hbytes⟩ hw hv
    have p8 : (s.write_bits 0 (8 - s.nbits % 8)).nbits % 8 = 0 := by
      have hsl : streamLen (s.write_bits 0 (8 - s.nbits % 8)) % 8 =
          (s.write_bits 0 (8 - s.nbits % 8)).nbits % 8 := by
        simp [streamLen]
        omega
      rw [← hsl, pLen]
      simp [streamLen]
      omega
    obtain ⟨a, b, c, d⟩ := hstage _ pInv p8
    refine ⟨a, b, ?_, ?_⟩
    · rw [c, pLen]
      simp [pad8, streamLen]
      omega
    · rw [d, pVal]
      simp
  · rw [if_neg hpad]
    push_neg at hpad
    obtain ⟨a, b, c, d⟩ := hstage s ⟨h64, hbuf, hbytes⟩ hpad
    refine ⟨a, b, ?_, d⟩
    rw [c]
    simp [pad8, streamLen]
    omega

theorem writesFold_spec (ws : List (Nat × Nat)) (s : WebPEncoder) (hs : PackerInv s)
    (h : ∀ p ∈ ws, p.2 ≤ 64 ∧ p.1 < 2 ^ p.2) :
    PackerInv (writesFold s ws) ∧
    streamLen (writesFold s ws) = streamLen s + totalWidth ws ∧
    streamVal (writesFold s ws) = streamVal s + concatVal ws * 2 ^ streamLen s := by
  induction ws generalizing s with
  | nil =>
    exact ⟨hs, by simp [writesFold, totalWidth], by simp [writesFold, concatVal]⟩
  | cons p rest ih =>
    obtain ⟨hw, hv⟩ := h p (by simp)
    obtain ⟨sInv, sLen, sVal⟩ := write_bits_spec s p.1 p.2 hs hw hv
    obtain ⟨rInv, rLen, rVal⟩ := ih (s.write_bits p.1 p.2) sInv
      (fun q hq => h q (by simp [hq]))
    have hfold : writesFold s (p :: rest) = writesFold (s.write_bits p.1 p.2) rest := rfl
    refine ⟨by rw [hfold]; exact rInv, ?_, ?_⟩
    · rw [hfold, rLen, sLen]
      simp [totalWidth]
      omega
    · rw [hfold, rVal, sVal, sLen]
      have hcv : concatVal (p :: rest) = p.1 % 2 ^ p.2 + 2 ^ p.2 * concatVal rest := by
        cases p
        rfl
      rw [hcv, Nat.mod_eq_of_lt hv, pow_add]
      ring

theorem packerInv_new (q : WebPQuality) : PackerInv (WebPEncoder.new_with_quality q) := by
  refine ⟨by norm_num [WebPEncoder.new_with_quality], ?_, by simp [WebPEncoder.new_with_quality]⟩
  simp [WebPEncoder.new_with_quality]

theorem streamLen_new (q : WebPQuality) : streamLen (WebPEncoder.new_with_quality q) = 0 := rfl

theorem streamVal_new (q : WebPQuality) : streamVal (WebPEncoder.new_with_quality q) = 0 := rfl

theorem concatVal_lt (ws : List (Nat × Nat)) : concatVal ws < 2 ^ totalWidth ws := by
  induction ws with
  | nil => simp [concatVal, totalWidth]
  | cons p rest ih =>
    cases p with
    | mk v w =>
      have h1 : v % 2 ^ w < 2 ^ w := Nat.mod_lt _ (Nat.two_pow_pos _)
      have h2 : concatVal ((v, w) :: rest) = v % 2 ^ w + 2 ^ w * concatVal rest := rfl
      have h3 : totalWidth ((v, w) :: rest) = w + totalWidth rest := by
        simp [totalWidth]
      rw [h2, h3, pow_add]
      nlinarith [Nat.two_pow_pos w, Nat.two_pow_pos (totalWidth rest)]

/-- The amended bit-packer contract: for writes whose values fit in their
widths, the flushed chunk buffer holds exactly the LSB-first concatenation
of the written bits, zero-padded to a byte boundary. -/
theorem bit_packer_contract (q : WebPQuality) (ws : List (Nat × Nat))
    (h : ∀ p ∈ ws, p.2 ≤ 64 ∧ p.1 < 2 ^ p.2) :
    (writesFold (WebPEncoder.new_with_quality q) ws).flush.chunk_buffer =
      paddedStreamBytes ws := by
  obtain ⟨rInv, rLen, rVal⟩ := writesFold_spec ws _ (packerInv_new q) h
  rw [streamLen_new] at rLen
  rw [streamVal_new, streamLen_new] at rVal
  simp only [zero_add, pow_zero, mul_one] at rLen rVal
  obtain ⟨fInv, fn, fLen, fVal⟩ := flush_spec _ rInv
  obtain ⟨f64, fbuf, fbytes⟩ := fInv
  have hb0 : (writesFold (WebPEncoder.new_with_quality q) ws).flush.buffer = 0 := by
    rw [fn] at fbuf
    simpa using fbuf
  have hlv : lv (writesFold (WebPEncoder.new_with_quality q) ws).flush.chunk_buffer =
      concatVal ws := by
    have hv2 := fVal
    rw [rVal] at hv2
    simp [streamVal, hb0] at hv2
    exact hv2
  have hlen : (writesFold (WebPEncoder.new_with_quality q) ws).flush.chunk_buffer.length =
      pad8 (totalWidth ws) / 8 := by
    have hl2 := fLen
    rw [rLen] at hl2
    simp [streamLen, fn] at hl2
    omega
  rw [eq_leListBytes_self _ fbytes, hlv, hlen]
  rfl

/-! Decomposition of the encoder into write lists -/

theorem writesFold_append (s : WebPEncoder) (a b : List (Nat × Nat)) :
    writesFold s (a ++ b) = writesFold (writesFold s a) b := by
  simp [writesFold]

theorem write_flat_eq (s : WebPEncoder) :
    s.write_flat_huffman_tree = writesFold s flatTreeWrites := by
  simp [WebPEncoder.write_flat_huffman_tree, flatTreeWrites, writesFold, List.range_succ,
    List.replicate, List.foldl_append]

theorem write_single_eq (s : WebPEncoder) (sym : Nat) :
    s.write_single_entry_huffman_tree sym = writesFold s (singleEntryWrites sym) := by
  unfold WebPEncoder.write_single_entry_huffman_tree singleEntryWrites writesFold
  by_cases h : sym ≤ 1 <;> simp [h]

theorem huffmanSection_eq (s : WebPEncoder) (ic ia : Bool) :
    s.writeHuffmanSection ic ia = writesFold s (treeSectionWrites ic ia) := by
  cases ic <;> cases ia <;>
    simp [WebPEncoder.writeHuffmanSection, treeSectionWrites, greenTreeWrites, redTreeWrites,
      blueTreeWrites, alphaTreeWrites, distanceTreeWrites, writesFold_append, write_flat_eq,
      write_single_eq]

theorem writeImageDataL8_eq : ∀ (buf : List Nat) (s : WebPEncoder),
    s.writeImageDataL8 buf = writesFold s (payloadWritesL8 buf)
  | [], _ => rfl
  | p :: rest, s => by
      simp only [WebPEncoder.writeImageDataL8, payloadWritesL8, writesFold, List.foldl_cons]
      exact writeImageDataL8_eq rest _

theorem writeImageDataLa8_eq : ∀ (buf : List Nat) (s : WebPEncoder),
    s.writeImageDataLa8 buf = writesFold s (payloadWritesLa8 buf)
  | [], _ => rfl
  | [_], _ => rfl
  | _ :: _ :: rest, s => by
      simp only [WebPEncoder.writeImageDataLa8, payloadWritesLa8, writesFold, List.foldl_cons]
      exact writeImageDataLa8_eq rest _

theorem writeImageDataRgb8_eq : ∀ (buf : List Nat) (s : WebPEncoder),
    s.writeImageDataRgb8 buf = writesFold s (payloadWritesRgb8 buf)
  | [], _ => rfl
  | [_], _ => rfl
  | [_, _], _ => rfl
  | _ :: _ :: _ :: rest, s => by
      simp only [WebPEncoder.writeImageDataRgb8, payloadWritesRgb8, writesFold, List.foldl_cons]
      exact writeImageDataRgb8_eq rest _

theorem writeImageDataRgba8_eq : ∀ (buf : List Nat) (s : WebPEncoder),
    s.writeImageDataRgba8 buf = writesFold s (payloadWritesRgba8 buf)
  | [], _ => rfl
  | [_], _ => rfl
  | [_, _], _ => rfl
  | [_, _, _], _ => rfl
  | _ :: _ :: _ :: _ :: rest, s => by
      simp only [WebPEncoder.writeImageDataRgba8, payloadWritesRgba8, writesFold, List.foldl_cons]
      exact writeImageDataRgba8_eq rest _

theorem writeImageData_eq (s : WebPEncoder) (c : ColorType) (buf : List Nat) :
    s.writeImageData c buf = writesFold s (payloadWrites c buf) := by
  cases c <;>
    simp [WebPEncoder.writeImageData, payloadWrites, writeImageDataL8_eq, writeImageDataLa8_eq,
      writeImageDataRgb8_eq, writeImageDataRgba8_eq, writesFold]

theorem losslessBody_eq (self : WebPEncoder) (data : List Nat) (width height : Nat)
    (color : ColorType) (ic ia : Bool) :
    self.losslessBody data width height color ic ia =
      (writesFold self (losslessWrites data width height color ic ia)).flush := by
  cases ic <;>
    simp [WebPEncoder.losslessBody, losslessWrites, headerWrites, writesFold_append,
      huffmanSection_eq, writeImageData_eq, writesFold]

/-! Boundedness of the writes performed by a lossless encode -/

theorem reverse_bits_lt (b : Nat) : reverse_bits b < 256 := by
  unfold reverse_bits
  omega

theorem payloadWritesL8_bounded : ∀ (buf : List Nat), ∀ p ∈ payloadWritesL8 buf,
    p.2 ≤ 64 ∧ p.1 < 2 ^ p.2
  | [], p, hp => by simp [payloadWritesL8] at hp
  | b :: rest, p, hp => by
      simp only [payloadWritesL8, List.mem_cons] at hp
      rcases hp with rfl | hp
      · exact ⟨by norm_num, by simpa using reverse_bits_lt b⟩
      · exact payloadWritesL8_bounded rest p hp

theorem payloadWritesLa8_bounded : ∀ (buf : List Nat), ∀ p ∈ payloadWritesLa8 buf,
    p.2 ≤ 64 ∧ p.1 < 2 ^ p.2
  | [], p, hp => by simp [payloadWritesLa8] at hp
  | [_], p, hp => by simp [payloadWritesLa8] at hp
  | b0 :: b1 :: rest, p, hp => by
      simp only [payloadWritesLa8, List.mem_cons] at hp
      rcases hp with rfl | rfl | hp
      · exact ⟨by norm_num, by simpa using reverse_bits_lt b0⟩
      · exact ⟨by norm_num, by simpa using reverse_bits_lt b1⟩
      · exact payloadWritesLa8_bounded rest p hp

theorem payloadWritesRgb8_bounded : ∀ (buf : List Nat), ∀ p ∈ payloadWritesRgb8 buf,
    p.2 ≤ 64 ∧ p.1 < 2 ^ p.2
  | [], p, hp => by simp [payloadWritesRgb8] at hp
  | [_], p, hp => by simp [payloadWritesRgb8] at hp
  | [_, _], p, hp => by simp [payloadWritesRgb8] at hp
  | b0 :: b1 :: b2 :: rest, p, hp => by
      simp only [payloadWritesRgb8, List.mem_cons] at hp
      rcases hp with rfl | rfl | rfl | hp
      · exact ⟨by norm_num, by simpa using reverse_bits_lt b1⟩
      · exact ⟨by norm_num, by simpa using reverse_bits_lt b0⟩
      · exact ⟨by norm_num, by simpa using reverse_bits_lt b2⟩
      · exact payloadWritesRgb8_bounded rest p hp

theorem payloadWritesRgba8_bounded : ∀ (buf : List Nat), ∀ p ∈ payloadWritesRgba8 buf,
    p.2 ≤ 64 ∧ p.1 < 2 ^ p.2
  | [], p, hp => by simp [payloadWritesRgba8] at hp
  | [_], p, hp => by simp [payloadWritesRgba8] at hp
  | [_, _], p, hp => by simp [payloadWritesRgba8] at hp
  | [_, _, _], p, hp => by simp [payloadWritesRgba8] at hp
  | b0 :: b1 :: b2 :: b3 :: rest, p, hp => by
      simp only [payloadWritesRgba8, List.mem_cons] at hp
      rcases hp with rfl | rfl | rfl | rfl | hp
      · exact ⟨by norm_num, by simpa using reverse_bits_lt b1⟩
      · exact ⟨by norm_num, by simpa using reverse_bits_lt b0⟩
      · exact ⟨by norm_num, by simpa using reverse_bits_lt b2⟩
      · exact ⟨by norm_num, by simpa using reverse_bits_lt b3⟩
      · exact payloadWritesRgba8_bounded rest p hp

theorem payloadWrites_bounded (c : ColorType) (buf : List Nat) :
    ∀ p ∈ payloadWrites c buf, p.2 ≤ 64 ∧ p.1 < 2 ^ p.2 := by
  cases c <;>
    simp only [payloadWrites] <;>
    first
      | exact payloadWritesL8_bounded buf
      | exact payloadWritesLa8_bounded buf
      | exact payloadWritesRgb8_bounded buf
      | exact payloadWritesRgba8_bounded buf
      | simp

theorem treeSection_bounded (ic ia : Bool) :
    ∀ p ∈ treeSectionWrites ic ia, p.2 ≤ 64 ∧ p.1 < 2 ^ p.2 := by
  cases ic <;> cases ia <;> decide

theorem headerWrites_bounded (w h : Nat) (ic ia : Bool) (hw : w ≤ 16384) (hh : h ≤ 16384) :
    ∀ p ∈ headerWrites w h ic ia, p.2 ≤ 64 ∧ p.1 < 2 ^ p.2 := by
  intro p hp
  cases ic <;> cases ia <;>
    simp [headerWrites] at hp <;>
    rcases hp with rfl | rfl | rfl | rfl | rfl | rfl | rfl | rfl | rfl <;>
    refine ⟨by norm_num, ?_⟩ <;> norm_num <;> omega

theorem losslessWrites_bounded (data : List Nat) (w h : Nat) (c : ColorType) (ic ia : Bool)
    (hw : w ≤ 16384) (hh : h ≤ 16384) :
    ∀ p ∈ losslessWrites data w h c ic ia, p.2 ≤ 64 ∧ p.1 < 2 ^ p.2 := by
  intro p hp
  simp only [losslessWrites, List.mem_append] at hp
  rcases hp with (hp | hp) | hp
  · exact headerWrites_bounded w h ic ia hw hh p hp
  · exact treeSection_bounded ic ia p hp
  · exact payloadWrites_bounded c data p hp

/-! Width totals, for the chunk-length bound -/

theorem totalWidth_append (a b : List (Nat × Nat)) :
    totalWidth (a ++ b) = totalWidth a + totalWidth b := by
  simp [totalWidth]

theorem totalWidth_header_le (w h : Nat) (ic ia : Bool) :
    totalWidth (headerWrites w h ic ia) ≤ 46 := by
  cases ic <;> cases ia <;> simp [totalWidth, headerWrites]

theorem totalWidth_section_le (ic ia : Bool) :
    totalWidth (treeSectionWrites ic ia) ≤ 216 := by
  cases ic <;> cases ia <;> decide

theorem totalWidth_payloadL8 : ∀ buf : List Nat,
    totalWidth (payloadWritesL8 buf) ≤ 8 * buf.length
  | [] => by simp [payloadWritesL8, totalWidth]
  | b :: rest => by
      have := totalWidth_payloadL8 rest
      simp only [payloadWritesL8, totalWidth, List.map_cons, List.sum_cons] at *
      simp
      omega

theorem totalWidth_payloadLa8 : ∀ buf : List Nat,
    totalWidth (payloadWritesLa8 buf) ≤ 8 * buf.length
  | [] => by simp [payloadWritesLa8, totalWidth]
  | [_] => by simp [payloadWritesLa8, totalWidth]
  | b0 :: b1 :: rest => by
      have := totalWidth_payloadLa8 rest
      simp only [payloadWritesLa8, totalWidth, List.map_cons, List.sum_cons] at *
      simp
      omega

theorem totalWidth_payloadRgb8 : ∀ buf : List Nat,
    totalWidth (payloadWritesRgb8 buf) ≤ 8 * buf.length
  | [] => by simp [payloadWritesRgb8, totalWidth]
  | [_] => by simp [payloadWritesRgb8, totalWidth]
  | [_, _] => by simp [payloadWritesRgb8, totalWidth]
  | b0 :: b1 :: b2 :: rest => by
      have := totalWidth_payloadRgb8 rest
      simp only [payloadWritesRgb8, totalWidth, List.map_cons, List.sum_cons] at *
      simp
      omega

theorem totalWidth_payloadRgba8 : ∀ buf : List Nat,
    totalWidth (payloadWritesRgba8 buf) ≤ 8 * buf.length
  | [] => by simp [payloadWritesRgba8, totalWidth]
  | [_] => by simp [payloadWritesRgba8, totalWidth]
  | [_, _] => by simp [payloadWritesRgba8, totalWidth]
  | [_, _, _] => by simp [payloadWritesRgba8, totalWidth]
  | b0 :: b1 :: b2 :: b3 :: rest => by
      have := totalWidth_payloadRgba8 rest
      simp only [payloadWritesRgba8, totalWidth, List.map_cons, List.sum_cons] at *
      simp
      omega

theorem totalWidth_payload_le (c : ColorType) (buf : List Nat) :
    totalWidth (payloadWrites c buf) ≤ 8 * buf.length := by
  cases c <;>
    simp only [payloadWrites] <;>
    first
      | exact totalWidth_payloadL8 buf
      | exact totalWidth_payloadLa8 buf
      | exact totalWidth_payloadRgb8 buf
      | exact totalWidth_payloadRgba8 buf
      | simp [totalWidth]

theorem totalWidth_lossless_le (data : List Nat) (w h : Nat) (c : ColorType) (ic ia : Bool) :
    totalWidth (losslessWrites data w h c ic ia) ≤ 262 + 8 * data.length := by
  simp only [losslessWrites, totalWidth_append]
  have h1 := totalWidth_header_le w h ic ia
  have h2 := totalWidth_section_le ic ia
  have h3 := totalWidth_payload_le c data
  omega

/-! Panic-freedom: the checked variants always return `some` on the states
the encoder actually reaches -/

theorem write_bits_nbits_lt (s : WebPEncoder) (v w : Nat) (h64 : s.nbits < 64) (hw : w ≤ 64) :
    (s.write_bits v w).nbits < 64 := by
  unfold WebPEncoder.write_bits
  by_cases hc : 64 ≤ s.nbits + w
  · rw [if_pos hc]; simp; omega
  · rw [if_neg hc]; simp; omega

theorem write_bitsC_eq (s : WebPEncoder) (v w : Nat) (h64 : s.nbits < 64) (hw : w ≤ 64) :
    s.write_bitsC v w = some (s.write_bits v w) := by
  simp [WebPEncoder.write_bitsC, h64, hw]

theorem write_singleC_ok (sym : Nat) (s : WebPEncoder) (h64 : s.nbits < 64) :
    s.write_single_entry_huffman_treeC sym = some (s.write_single_entry_huffman_tree sym) ∧
    (s.write_single_entry_huffman_tree sym).nbits < 64 := by
  have e1 := write_bitsC_eq s 1 2 h64 (by norm_num)
  have l1 := write_bits_nbits_lt s 1 2 h64 (by norm_num)
  by_cases hsym : sym ≤ 1
  · have e2 := write_bitsC_eq (s.write_bits 1 2) 0 1 l1 (by norm_num)
    have l2 := write_bits_nbits_lt (s.write_bits 1 2) 0 1 l1 (by norm_num)
    have e3 := write_bitsC_eq ((s.write_bits 1 2).write_bits 0 1) sym 1 l2 (by norm_num)
    have l3 := write_bits_nbits_lt ((s.write_bits 1 2).write_bits 0 1) sym 1 l2 (by norm_num)
    constructor
    · simp [WebPEncoder.write_single_entry_huffman_treeC,
        WebPEncoder.write_single_entry_huffman_tree, e1, e2, e3, hsym]
    · simp [WebPEncoder.write_single_entry_huffman_tree, hsym]
      exact l3
  · have e2 := write_bitsC_eq (s.write_bits 1 2) 1 1 l1 (by norm_num)
    have l2 := write_bits_nbits_lt (s.write_bits 1 2) 1 1 l1 (by norm_num)
    have e3 := write_bitsC_eq ((s.write_bits 1 2).write_bits 1 1) sym 8 l2 (by norm_num)
    have l3 := write_bits_nbits_lt ((s.write_bits 1 2).write_bits 1 1) sym 8 l2 (by norm_num)
    constructor
    · simp [WebPEncoder.write_single_entry_huffman_treeC,
        WebPEncoder.write_single_entry_huffman_tree, e1, e2, e3, hsym]
    · simp [WebPEncoder.write_single_entry_huffman_tree, hsym]
      exact l3

theorem foldl_write3_ok : ∀ (l : List Nat) (s : WebPEncoder), s.nbits < 64 →
    (List.foldlM (fun t _ => t.write_bitsC 0 3) s l : Option WebPEncoder) =
      some (List.foldl (fun t _ => t.write_bits 0 3) s l) ∧
    (List.foldl (fun t _ => t.write_bits 0 3) s l).nbits < 64
  | [], s, h => ⟨rfl, h⟩
  | _ :: rest, s, h => by
      have e := write_bitsC_eq s 0 3 h (by norm_num)
      have l1 := write_bits_nbits_lt s 0 3 h (by norm_num)
      have ih := foldl_write3_ok rest (s.write_bits 0 3) l1
      constructor
      · simp [List.foldlM, e, ih.1]
      · simpa using ih.2

theorem write_flatC_ok (s : WebPEncoder) (h64 : s.nbits < 64) :
    s.write_flat_huffman_treeC = some s.write_flat_huffman_tree ∧
    s.write_flat_huffman_tree.nbits < 64 := by
  have e1 := write_bitsC_eq s 0 1 h64 (by norm_num)
  have l1 := write_bits_nbits_lt s 0 1 h64 (by norm_num)
  have e2 := write_bitsC_eq (s.write_bits 0 1) 8 4 l1 (by norm_num)
  have l2 := write_bits_nbits_lt (s.write_bits 0 1) 8 4 l1 (by norm_num)
  obtain ⟨e3, l3⟩ := foldl_write3_ok (List.range 11) ((s.write_bits 0 1).write_bits 8 4) l2
  set s3 := List.foldl (fun t _ => t.write_bits 0 3) ((s.write_bits 0 1).write_bits 8 4)
    (List.range 11) with hs3
  have e4 := write_bitsC_eq s3 1 3 l3 (by norm_num)
  have l4 := write_bits_nbits_lt s3 1 3 l3 (by norm_num)
  have e5 := write_bitsC_eq (s3.write_bits 1 3) 1 1 l4 (by norm_num)
  have l5 := write_bits_nbits_lt (s3.write_bits 1 3) 1 1 l4 (by norm_num)
  have e6 := write_bitsC_eq ((s3.write_bits 1 3).write_bits 1 1) 3 3 l5 (by norm_num)
  have l6 := write_bits_nbits_lt ((s3.write_bits 1 3).write_bits 1 1) 3 3 l5 (by norm_num)
  have e7 := write_bitsC_eq (((s3.write_bits 1 3).write_bits 1 1).write_bits 3 3) 254 8 l6
    (by norm_num)
  have l7 := write_bits_nbits_lt (((s3.write_bits 1 3).write_bits 1 1).write_bits 3 3) 254 8 l6
    (by norm_num)
  constructor
  · simp [WebPEncoder.write_flat_huffman_treeC, WebPEncoder.write_flat_huffman_tree,
      e1, e2, e3, e4, e5, e6, e7, ← hs3]
  · simpa [WebPEncoder.write_flat_huffman_tree, ← hs3] using l7

theorem flushC_eq (s : WebPEncoder) (h64 : s.nbits < 64) : s.flushC = some s.flush := by
  unfold WebPEncoder.flushC WebPEncoder.flush
  by_cases hpad : s.nbits % 8 ≠ 0
  · rw [if_pos hpad, if_pos hpad]
    have hw : 8 - s.nbits % 8 ≤ 64 := by omega
    have e := write_bitsC_eq s 0 (8 - s.nbits % 8) h64 hw
    have l := write_bits_nbits_lt s 0 (8 - s.nbits % 8) h64 hw
    rw [e]
    by_cases hz : 0 < (s.write_bits 0 (8 - s.nbits % 8)).nbits
    · simp [hz, (by omega : (s.write_bits 0 (8 - s.nbits % 8)).nbits / 8 ≤ 8)]
    · simp [hz]
  · rw [if_neg hpad, if_neg hpad]
    by_cases hz : 0 < s.nbits
    · simp [hz, (by omega : s.nbits / 8 ≤ 8)]
    · simp [hz]

theorem writeImageDataL8C_ok : ∀ (buf : List Nat) (s : WebPEncoder), s.nbits < 64 →
    s.writeImageDataL8C buf = some (s.writeImageDataL8 buf) ∧
    (s.writeImageDataL8 buf).nbits < 64
  | [], _, h => ⟨rfl, h⟩
  | b :: rest, s, h => by
      have e := write_bitsC_eq s (reverse_bits b) 8 h (by norm_num)
      have l := write_bits_nbits_lt s (reverse_bits b) 8 h (by norm_num)
      have ih := writeImageDataL8C_ok rest (s.write_bits (reverse_bits b) 8) l
      constructor
      · simp [WebPEncoder.writeImageDataL8C, WebPEncoder.writeImageDataL8, e, ih.1]
      · simpa [WebPEncoder.writeImageDataL8] using ih.2

theorem writeImageDataLa8C_ok : ∀ (buf : List Nat) (s : WebPEncoder), s.nbits < 64 →
    s.writeImageDataLa8C buf = some (s.writeImageDataLa8 buf) ∧
    (s.writeImageDataLa8 buf).nbits < 64
  | [], _, h => ⟨rfl, h⟩
  | [_], _, h => ⟨rfl, h⟩
  | b0 :: b1 :: rest, s, h => by
      have e1 := write_bitsC_eq s (reverse_bits b0) 8 h (by norm_num)
      have l1 := write_bits_nbits_lt s (reverse_bits b0) 8 h (by norm_num)
      have e2 := write_bitsC_eq (s.write_bits (reverse_bits b0) 8) (reverse_bits b1) 8 l1
        (by norm_num)
      have l2 := write_bits_nbits_lt (s.write_bits (reverse_bits b0) 8) (reverse_bits b1) 8 l1
        (by norm_num)
      have ih := writeImageDataLa8C_ok rest
        ((s.write_bits (reverse_bits b0) 8).write_bits (reverse_bits b1) 8) l2
      constructor
      · simp [WebPEncoder.writeImageDataLa8C, WebPEncoder.writeImageDataLa8, e1, e2, ih.1]
      · simpa [WebPEncoder.writeImageDataLa8] using ih.2

theorem writeImageDataRgb8C_ok : ∀ (buf : List Nat) (s : WebPEncoder), s.nbits < 64 →
    s.writeImageDataRgb8C buf = some (s.writeImageDataRgb8 buf) ∧
    (s.writeImageDataRgb8 buf).nbits < 64
  | [], _, h => ⟨rfl, h⟩
  | [_], _, h => ⟨rfl, h⟩
  | [_, _], _, h => ⟨rfl, h⟩
  | b0 :: b1 :: b2 :: rest, s, h => by
      have e1 := write_bitsC_eq s (reverse_bits b1) 8 h (by norm_num)
      have l1 := write_bits_nbits_lt s (reverse_bits b1) 8 h (by norm_num)
      have e2 := write_bitsC_eq (s.write_bits (reverse_bits b1) 8) (reverse_bits b0) 8 l1
        (by norm_num)
      have l2 := write_bits_nbits_lt (s.write_bits (reverse_bits b1) 8) (reverse_bits b0) 8 l1
        (by norm_num)
      have e3 := write_bitsC_eq ((s.write_bits (reverse_bits b1) 8).write_bits
        (reverse_bits b0) 8) (reverse_bits b2) 8 l2 (by norm_num)
      have l3 := write_bits_nbits_lt ((s.write_bits (reverse_bits b1) 8).write_bits
        (reverse_bits b0) 8) (reverse_bits b2) 8 l2 (by norm_num)
      have ih := writeImageDataRgb8C_ok rest (((s.write_bits (reverse_bits b1) 8).write_bits
        (reverse_bits b0) 8).write_bits (reverse_bits b2) 8) l3
      constructor
      · simp [WebPEncoder.writeImageDataRgb8C, WebPEncoder.writeImageDataRgb8, e1, e2, e3, ih.1]
      · simpa [WebPEncoder.writeImageDataRgb8] using ih.2

theorem writeImageDataRgba8C_ok : ∀ (buf : List Nat) (s : WebPEncoder), s.nbits < 64 →
    s.writeImageDataRgba8C buf = some (s.writeImageDataRgba8 buf) ∧
    (s.writeImageDataRgba8 buf).nbits < 64
  | [], _, h => ⟨rfl, h⟩
  | [_], _, h => ⟨rfl, h⟩
  | [_, _], _, h => ⟨rfl, h⟩
  | [_, _, _], _, h => ⟨rfl, h⟩
  | b0 :: b1 :: b2 :: b3 :: rest, s, h => by
      have e1 := write_bitsC_eq s (reverse_bits b1) 8 h (by norm_num)
      have l1 := write_bits_nbits_lt s (reverse_bits b1) 8 h (by norm_num)
      have e2 := write_bitsC_eq (s.write_bits (reverse_bits b1) 8) (reverse_bits b0) 8 l1
        (by norm_num)
      have l2 := write_bits_nbits_lt (s.write_bits (reverse_bits b1) 8) (reverse_bits b0) 8 l1
        (by norm_num)
      have e3 := write_bitsC_eq ((s.write_bits (reverse_bits b1) 8).write_bits
        (reverse_bits b0) 8) (reverse_bits b2) 8 l2 (by norm_num)
      have l3 := write_bits_nbits_lt ((s.write_bits (reverse_bits b1) 8).write_bits
        (reverse_bits b0) 8) (reverse_bits b2) 8 l2 (by norm_num)
      have e4 := write_bitsC_eq (((s.write_bits (reverse_bits b1) 8).write_bits
        (reverse_bits b0) 8).write_bits (reverse_bits b2) 8) (reverse_bits b3) 8 l3 (by norm_num)
      have l4 := write_bits_nbits_lt (((s.write_bits (reverse_bits b1) 8).write_bits
        (reverse_bits b0) 8).write_bits (reverse_bits b2) 8) (reverse_bits b3) 8 l3 (by norm_num)
      have ih := writeImageDataRgba8C_ok rest ((((s.write_bits (reverse_bits b1) 8).write_bits
        (reverse_bits b0) 8).write_bits (reverse_bits b2) 8).write_bits (reverse_bits b3) 8) l4
      constructor
      · simp [WebPEncoder.writeImageDataRgba8C, WebPEncoder.writeImageDataRgba8,
          e1, e2, e3, e4, ih.1]
      · simpa [WebPEncoder.writeImageDataRgba8] using ih.2

theorem writeImageDataC_ok (c : ColorType) (m : Bool × Bool) (hc : colorModes c = some m)
    (buf : List Nat) (s : WebPEncoder) (h64 : s.nbits < 64) :
    s.writeImageDataC c buf = some (s.writeImageData c buf) ∧
    (s.writeImageData c buf).nbits < 64 := by
  cases c <;> simp [colorModes] at hc <;>
    simp only [WebPEncoder.writeImageDataC, WebPEncoder.writeImageData] <;>
    first
      | exact writeImageDataL8C_ok buf s h64
      | exact writeImageDataLa8C_ok buf s h64
      | exact writeImageDataRgb8C_ok buf s h64
      | exact writeImageDataRgba8C_ok buf s h64

theorem writeHuffmanSectionC_ok (ic ia : Bool) (s : WebPEncoder) (h64 : s.nbits < 64) :
    s.writeHuffmanSectionC ic ia = some (s.writeHuffmanSection ic ia) ∧
    (s.writeHuffmanSection ic ia).nbits < 64 := by
  cases ic <;> cases ia
  all_goals {
    obtain ⟨e1, l1⟩ := write_flatC_ok s h64
    first
      | { obtain ⟨e2, l2⟩ := write_flatC_ok _ l1
          obtain ⟨e3, l3⟩ := write_flatC_ok _ l2
          first
            | { obtain ⟨e4, l4⟩ := write_flatC_ok _ l3
                obtain ⟨e5, l5⟩ := write_singleC_ok 0 _ l4
                refine ⟨?_, ?_⟩
                · simp [WebPEncoder.writeHuffmanSectionC, WebPEncoder.writeHuffmanSection,
                    e1, e2, e3, e4, e5]
                · simpa [WebPEncoder.writeHuffmanSection] using l5 }
            | { obtain ⟨e4, l4⟩ := write_singleC_ok 255 _ l3
                obtain ⟨e5, l5⟩ := write_singleC_ok 0 _ l4
                refine ⟨?_, ?_⟩
                · simp [WebPEncoder.writeHuffmanSectionC, WebPEncoder.writeHuffmanSection,
                    e1, e2, e3, e4, e5]
                · simpa [WebPEncoder.writeHuffmanSection] using l5 } }
      | { obtain ⟨e2, l2⟩ := write_singleC_ok 0 _ l1
          obtain ⟨e3, l3⟩ := write_singleC_ok 0 _ l2
          first
            | { obtain ⟨e4, l4⟩ := write_flatC_ok _ l3
                obtain ⟨e5, l5⟩ := write_singleC_ok 0 _ l4
                refine ⟨?_, ?_⟩
                · simp [WebPEncoder.writeHuffmanSectionC, WebPEncoder.writeHuffmanSection,
                    e1, e2, e3, e4, e5]
                · simpa [WebPEncoder.writeHuffmanSection] using l5 }
            | { obtain ⟨e4, l4⟩ := write_singleC_ok 255 _ l3
                obtain ⟨e5, l5⟩ := write_singleC_ok 0 _ l4
                refine ⟨?_, ?_⟩
                · simp [WebPEncoder.writeHuffmanSectionC, WebPEncoder.writeHuffmanSection,
                    e1, e2, e3, e4, e5]
                · simpa [WebPEncoder.writeHuffmanSection] using l5 } }
  }

theorem losslessBodyC_ok (s : WebPEncoder) (data : List Nat) (w h : Nat) (c : ColorType)
    (ic ia : Bool) (hc : colorModes c = some (ic, ia)) (h64 : s.nbits < 64) :
    s.losslessBodyC data w h c ic ia = some (s.losslessBody data w h c ic ia) := by
  have e1 := write_bitsC_eq s 0x2f 8 h64 (by norm_num)
  have l1 := write_bits_nbits_lt s 0x2f 8 h64 (by norm_num)
  have e2 := write_bitsC_eq _ (w - 1) 14 l1 (by norm_num)
  have l2 := write_bits_nbits_lt _ (w - 1) 14 l1 (by norm_num)
  have e3 := write_bitsC_eq _ (h - 1) 14 l2 (by norm_num)
  have l3 := write_bits_nbits_lt _ (h - 1) 14 l2 (by norm_num)
  have e4 := write_bitsC_eq _ (if ia then 1 else 0) 1 l3 (by norm_num)
  have l4 := write_bits_nbits_lt _ (if ia then 1 else 0) 1 l3 (by norm_num)
  have e5 := write_bitsC_eq _ 0 3 l4 (by norm_num)
  have l5 := write_bits_nbits_lt _ 0 3 l4 (by norm_num)
  cases ic with
  | false =>
    have e6 := write_bitsC_eq _ 5 3 l5 (by norm_num)
    have l6 := write_bits_nbits_lt _ 5 3 l5 (by norm_num)
    have e7 := write_bitsC_eq _ 0 1 l6 (by norm_num)
    have l7 := write_bits_nbits_lt _ 0 1 l6 (by norm_num)
    have e8 := write_bitsC_eq _ 0 1 l7 (by norm_num)
    have l8 := write_bits_nbits_lt _ 0 1 l7 (by norm_num)
    have e9 := write_bitsC_eq _ 0 1 l8 (by norm_num)
    have l9 := write_bits_nbits_lt _ 0 1 l8 (by norm_num)
    obtain ⟨eH, lH⟩ := writeHuffmanSectionC_ok false ia _ l9
    obtain ⟨eD, lD⟩ := writeImageDataC_ok c (false, ia) hc data _ lH
    have eF := flushC_eq _ lD
    simp [WebPEncoder.losslessBodyC, WebPEncoder.losslessBody,
      e1, e2, e3, e4, e5, e6, e7, e8, e9, eH, eD, eF]
  | true =>
    have e7 := write_bitsC_eq _ 0 1 l5 (by norm_num)
    have l7 := write_bits_nbits_lt _ 0 1 l5 (by norm_num)
    have e8 := write_bitsC_eq _ 0 1 l7 (by norm_num)
    have l8 := write_bits_nbits_lt _ 0 1 l7 (by norm_num)
    have e9 := write_bitsC_eq _ 0 1 l8 (by norm_num)
    have l9 := write_bits_nbits_lt _ 0 1 l8 (by norm_num)
    obtain ⟨eH, lH⟩ := writeHuffmanSectionC_ok true ia _ l9
    obtain ⟨eD, lD⟩ := writeImageDataC_ok c (true, ia) hc data _ lH
    have eF := flushC_eq _ lD
    simp [WebPEncoder.losslessBodyC, WebPEncoder.losslessBody,
      e1, e2, e3, e4, e5, e7, e8, e9, eH, eD, eF]

theorem encode_losslessC_eq (self : WebPEncoder) (data : List Nat) (w h : Nat) (c : ColorType)
    (h64 : self.nbits < 64) :
    self.encode_losslessC data w h c = some (self.encode_lossless data w h c) := by
  unfold WebPEncoder.encode_losslessC WebPEncoder.encode_lossless
  by_cases hval : w = 0 ∨ 16383 < w ∨ h = 0 ∨ 16383 < h ∨
      ¬ row_major_packed_fits c.channel_count w h data.length
  · rw [if_pos hval, if_pos hval]
  · rw [if_neg hval, if_neg hval]
    cases hcm : colorModes c with
    | none => rfl
    | some m =>
      cases m with
      | mk ic ia =>
        have eB := losslessBodyC_ok self data w h c ic ia hcm h64
        simp [eB]

theorem encodeC_eq (native : NativeEncoder) (q : WebPQuality) (data : List Nat) (w h : Nat)
    (c : ColorType) :
    (WebPEncoder.new_with_quality q).encodeC native data w h c =
      some ((WebPEncoder.new_with_quality q).encode native data w h c) := by
  unfold WebPEncoder.encodeC WebPEncoder.encode
  cases hq : q.q with
  | Lossless =>
    have h64 : (WebPEncoder.new_with_quality q).nbits < 64 := by
      simp [WebPEncoder.new_with_quality]
    have heq := encode_losslessC_eq (WebPEncoder.new_with_quality q) data w h c h64
    simp only [WebPEncoder.new_with_quality] at heq ⊢
    simp [hq, heq]
  | Lossy l =>
    simp [WebPEncoder.new_with_quality, hq]

/-! Chunk-length bound for the container framing -/

theorem channel_count_le (c : ColorType) : c.channel_count ≤ 4 := by
  cases c <;> simp [ColorType.channel_count]

theorem pad8_le (n : Nat) : pad8 n ≤ n + 7 := by
  unfold pad8
  omega

theorem padIfOdd_even (l : List Nat) : (padIfOdd l).length % 2 = 0 := by
  unfold padIfOdd
  by_cases h : l.length % 2 = 1
  · simp [h]
    omega
  · simp [h]
    omega

theorem padIfOdd_len_le (l : List Nat) : (padIfOdd l).length ≤ l.length + 1 := by
  unfold padIfOdd
  by_cases h : l.length % 2 = 1 <;> simp [h]

theorem body_chunk_len (q : WebPQuality) (data : List Nat) (w h : Nat) (c : ColorType)
    (ic ia : Bool) (hw : w ≤ 16383) (hh : h ≤ 16383)
    (hlen : data.length = w * h * c.channel_count) :
    ((WebPEncoder.new_with_quality q).losslessBody data w h c ic ia).chunk_buffer.length ≤
      1073610790 := by
  rw [losslessBody_eq]
  have hbnd := losslessWrites_bounded data w h c ic ia (by omega) (by omega)
  obtain ⟨rInv, rLen, rVal⟩ :=
    writesFold_spec (losslessWrites data w h c ic ia) _ (packerInv_new q) hbnd
  obtain ⟨fInv, fn, fLen, fVal⟩ := flush_spec _ rInv
  rw [streamLen_new] at rLen
  have hsl : streamLen ((writesFold (WebPEncoder.new_with_quality q)
      (losslessWrites data w h c ic ia)).flush) = 8 * ((writesFold (WebPEncoder.new_with_quality q)
      (losslessWrites data w h c ic ia)).flush).chunk_buffer.length := by
    simp [streamLen, fn]
  have htw := totalWidth_lossless_le data w h c ic ia
  have h1 : w * h ≤ 16383 * 16383 := Nat.mul_le_mul hw hh
  have h2 : w * h * c.channel_count ≤ 16383 * 16383 * 4 :=
    Nat.mul_le_mul h1 (channel_count_le c)
  have hp := pad8_le (streamLen (writesFold (WebPEncoder.new_with_quality q)
    (losslessWrites data w h c ic ia)))
  rw [hsl] at fLen
  omega

/-! C1: dimension and buffer validation of the lossless path -/

/-- C1 (amended): `encode_lossless` reports dimension-mismatch exactly when
width or height lies outside `[1, 16383]` (not 16384) or the buffer length
differs from `width * height * channel_count`; in every such case zero bytes
reach the sink. -/
theorem webp_c1_validation (self : WebPEncoder) (data : List Nat) (w h : Nat) (c : ColorType)
    (_hc : c = ColorType.L8 ∨ c = ColorType.La8 ∨ c = ColorType.Rgb8 ∨ c = ColorType.Rgba8) :
    (self.encode_lossless data w h c = Except.error ImageError.dimensionMismatch ↔
      (w = 0 ∨ 16383 < w ∨ h = 0 ∨ 16383 < h ∨ data.length ≠ w * h * c.channel_count)) ∧
    ((w = 0 ∨ 16383 < w ∨ h = 0 ∨ 16383 < h ∨ data.length ≠ w * h * c.channel_count) →
      sinkBytes (self.encode_lossless data w h c) = []) := by
  unfold WebPEncoder.encode_lossless
  by_cases hval : w = 0 ∨ 16383 < w ∨ h = 0 ∨ 16383 < h ∨
      ¬ row_major_packed_fits c.channel_count w h data.length
  · rw [if_pos hval]
    unfold row_major_packed_fits at hval
    constructor
    · simp only [true_iff]
      tauto
    · intro _
      rfl
  · rw [if_neg hval]
    unfold row_major_packed_fits at hval
    push_neg at hval
    obtain ⟨h1, h2, h3, h4, h5⟩ := hval
    constructor
    · constructor
      · intro hcontra
        cases hcm : colorModes c with
        | none => rw [hcm] at hcontra; simp at hcontra
        | some m =>
          obtain ⟨ic, ia⟩ := m
          rw [hcm] at hcontra
          simp at hcontra
      · intro hcontra
        exfalso
        rcases hcontra with hx | hx | hx | hx | hx <;> omega
    · intro hcontra
      exfalso
      rcases hcontra with hx | hx | hx | hx | hx <;> omega

/-- C1 counterexample: at width 16384 (inside the claimed range `[1, 16384]`,
with a correctly sized buffer) the code still reports dimension-mismatch. -/
theorem webp_c1_counterexample :
    (WebPEncoder.new_with_quality WebPQuality.lossless).encode_lossless
        (List.replicate 16384 0) 16384 1 ColorType.L8 =
      Except.error ImageError.dimensionMismatch ∧
    ¬ (16384 < 1 ∨ 16384 > 16384 ∨ 1 < 1 ∨ 1 > 16384 ∨
        (List.replicate 16384 0).length ≠ 16384 * 1 * ColorType.L8.channel_count) := by
  constructor
  · unfold WebPEncoder.encode_lossless
    rw [if_pos (Or.inr (Or.inl (by norm_num)))]
  · simp only [List.length_replicate, ColorType.channel_count]
    omega

/-- C1 witness: a zero width is rejected with dimension-mismatch and writes
nothing. -/
theorem webp_c1_witness :
    ((WebPEncoder.new_with_quality WebPQuality.lossless).encode_lossless [] 0 1 ColorType.L8 =
        Except.error ImageError.dimensionMismatch ↔
      ((0 : Nat) = 0 ∨ 16383 < 0 ∨ (1 : Nat) = 0 ∨ 16383 < 1 ∨
        ([] : List Nat).length ≠ 0 * 1 * ColorType.L8.channel_count)) ∧
    (((0 : Nat) = 0 ∨ 16383 < 0 ∨ (1 : Nat) = 0 ∨ 16383 < 1 ∨
        ([] : List Nat).length ≠ 0 * 1 * ColorType.L8.channel_count) →
      sinkBytes ((WebPEncoder.new_with_quality WebPQuality.lossless).encode_lossless [] 0 1
        ColorType.L8) = []) :=
  webp_c1_validation (WebPEncoder.new_with_quality WebPQuality.lossless) [] 0 1 ColorType.L8
    (Or.inl rfl)

/-! C2: the concrete 1×1 outputs -/

/-- C2 (code bug): evaluating `encode_lossless` at the two 1×1 test inputs.
The code emits 52- and 58-byte outputs from its flat-tree encoder; the claim
(and the repo's own `webp_lossless_deterministic` test, src lines 342-378)
expects the 36-byte sequences, so the code contradicts its own test. -/
theorem webp_c2_code_bug_eval :
    (WebPEncoder.new_with_quality WebPQuality.lossless).encode_lossless [255, 0, 0] 1 1
        ColorType.Rgb8 =
      Except.ok [82, 73, 70, 70, 44, 0, 0, 0, 87, 69, 66, 80, 86, 80, 56, 76, 32, 0, 0, 0,
        47, 0, 0, 0, 0, 128, 0, 0, 0, 0, 114, 254, 16, 0, 0, 0, 64, 206, 31, 2, 0, 0, 0, 200,
        249, 247, 63, 0, 254, 1, 0, 0] ∧
    (WebPEncoder.new_with_quality WebPQuality.lossless).encode_lossless [255, 0, 0, 128] 1 1
        ColorType.Rgba8 =
      Except.ok [82, 73, 70, 70, 50, 0, 0, 0, 87, 69, 66, 80, 86, 80, 56, 76, 38, 0, 0, 0,
        47, 0, 0, 0, 16, 128, 0, 0, 0, 0, 114, 254, 16, 0, 0, 0, 64, 206, 31, 2, 0, 0, 0, 200,
        249, 67, 0, 0, 0, 0, 57, 255, 0, 248, 7, 8, 0, 0] ∧
    (WebPEncoder.new_with_quality WebPQuality.lossless).encode_lossless [255, 0, 0] 1 1
        ColorType.Rgb8 ≠
      Except.ok [82, 73, 70, 70, 28, 0, 0, 0, 87, 69, 66, 80, 86, 80, 56, 76, 15, 0, 0, 0,
        47, 0, 0, 0, 0, 7, 16, 253, 143, 254, 7, 34, 162, 255, 1, 0] ∧
    (WebPEncoder.new_with_quality WebPQuality.lossless).encode_lossless [255, 0, 0, 128] 1 1
        ColorType.Rgba8 ≠
      Except.ok [82, 73, 70, 70, 28, 0, 0, 0, 87, 69, 66, 80, 86, 80, 56, 76, 15, 0, 0, 0,
        47, 0, 0, 0, 16, 7, 16, 253, 143, 2, 6, 34, 162, 255, 1, 0] := by
  refine ⟨by decide, by decide, by decide, by decide⟩

/-! C3: the bit packer contract -/

/-- C3 (amended): for every sequence of `write_bits(value, width)` calls with
`width ≤ 64` and `value < 2 ^ width`, followed by `flush()`, the chunk buffer
holds exactly the bytes of the LSB-first concatenation of the low `width`
bits of each value, zero-padded to the next byte boundary.  (Values with set
bits at positions at or above `width` can corrupt the output, see the
counterexample.) -/
theorem webp_c3_bit_packer (q : WebPQuality) (ws : List (Nat × Nat))
    (h : ∀ p ∈ ws, p.2 ≤ 64 ∧ p.1 < 2 ^ p.2) :
    (writesFold (WebPEncoder.new_with_quality q) ws).flush.chunk_buffer =
      paddedStreamBytes ws :=
  bit_packer_contract q ws h

/-- C3 witness: a concrete masked write sequence. -/
theorem webp_c3_witness :
    (∀ p ∈ [((5 : Nat), (3 : Nat)), (9, 4), (1, 1)], p.2 ≤ 64 ∧ p.1 < 2 ^ p.2) ∧
    (writesFold (WebPEncoder.new_with_quality WebPQuality.lossless)
        [(5, 3), (9, 4), (1, 1)]).flush.chunk_buffer =
      paddedStreamBytes [(5, 3), (9, 4), (1, 1)] :=
  ⟨by decide, webp_c3_bit_packer WebPQuality.lossless [(5, 3), (9, 4), (1, 1)] (by decide)⟩

/-- C3 counterexample: `write_bits(255, 1)` followed by `flush()` emits the
byte 255, not the byte 1 that the low-bit-only contract predicts: bits of
`value` at positions at or above `width` do reach the output. -/
theorem webp_c3_counterexample :
    (writesFold (WebPEncoder.new_with_quality WebPQuality.lossless) [(255, 1)]).flush.chunk_buffer
        = [255] ∧
    paddedStreamBytes [(255, 1)] = [1] ∧
    (writesFold (WebPEncoder.new_with_quality WebPQuality.lossless) [(255, 1)]).flush.chunk_buffer
        ≠ paddedStreamBytes [(255, 1)] := by
  refine ⟨by decide, by decide, by decide⟩

/-! C4: the pixel payload -/

/-- C4: the image-data block writes, per pixel in row-major order, the
bit-reversed channel bytes in the order green, red, blue, alpha (input byte
indices 1, 0, 2, 3 for Rgb8/Rgba8; the luminance byte in the green slot for
L8/La8, with no red or blue payload bits), and the lossless body is exactly
header writes, then tree writes, then these payload writes, then `flush`. -/
theorem webp_c4_pixel_payload :
    (∀ (s : WebPEncoder) (c : ColorType) (buf : List Nat),
      s.writeImageData c buf = writesFold s (payloadWrites c buf)) ∧
    (∀ (self : WebPEncoder) (data : List Nat) (w h : Nat) (c : ColorType) (ic ia : Bool),
      self.losslessBody data w h c ic ia =
        (writesFold self (headerWrites w h ic ia ++ treeSectionWrites ic ia ++
          payloadWrites c data)).flush) :=
  ⟨writeImageData_eq, fun self data w h c ic ia => losslessBody_eq self data w h c ic ia⟩

/-! C5: the flat huffman tree descriptor -/

/-- C5: `write_flat_huffman_tree` emits exactly the fixed field sequence
tag 0 (1 bit), 8 (4 bits), eleven zero 3-bit fields, 1 (3 bits), flag 1
(1 bit), 3 (3 bits), 254 (8 bits), with no other bits in between. -/
theorem webp_c5_flat_tree :
    (∀ s : WebPEncoder, s.write_flat_huffman_tree = writesFold s flatTreeWrites) ∧
    flatTreeWrites = [(0, 1), (8, 4), (0, 3), (0, 3), (0, 3), (0, 3), (0, 3), (0, 3), (0, 3),
      (0, 3), (0, 3), (0, 3), (0, 3), (1, 3), (1, 1), (3, 3), (254, 8)] :=
  ⟨write_flat_eq, by decide⟩

/-! C6: the five tree descriptors -/

/-- C6: a lossless encode emits exactly five tree descriptors in the fixed
order green, red, blue, alpha, distance; green is always flat, red and blue
are flat exactly for the color descriptors Rgb8/Rgba8 (single-entry symbol 0
otherwise), alpha is flat exactly for the alpha descriptors La8/Rgba8
(single-entry symbol 255 otherwise), and distance is always single-entry
symbol 0. -/
theorem webp_c6_tree_selection (s : WebPEncoder) (c : ColorType) (ic ia : Bool)
    (hc : colorModes c = some (ic, ia)) :
    s.writeHuffmanSection ic ia =
      writesFold s (greenTreeWrites ++ redTreeWrites ic ++ blueTreeWrites ic ++
        alphaTreeWrites ia ++ distanceTreeWrites) ∧
    greenTreeWrites = flatTreeWrites ∧
    redTreeWrites ic =
      (if c = ColorType.Rgb8 ∨ c = ColorType.Rgba8 then flatTreeWrites
       else singleEntryWrites 0) ∧
    blueTreeWrites ic =
      (if c = ColorType.Rgb8 ∨ c = ColorType.Rgba8 then flatTreeWrites
       else singleEntryWrites 0) ∧
    alphaTreeWrites ia =
      (if c = ColorType.La8 ∨ c = ColorType.Rgba8 then flatTreeWrites
       else singleEntryWrites 255) ∧
    distanceTreeWrites = singleEntryWrites 0 := by
  have hsec := huffmanSection_eq s ic ia
  have hflat : treeSectionWrites ic ia =
      greenTreeWrites ++ redTreeWrites ic ++ blueTreeWrites ic ++ alphaTreeWrites ia ++
        distanceTreeWrites := by
    simp [treeSectionWrites]
  refine ⟨by rw [hsec, hflat], rfl, ?_, ?_, ?_, rfl⟩ <;>
    cases c <;> simp_all [colorModes, redTreeWrites, blueTreeWrites, alphaTreeWrites]

/-- C6 witness: the Rgb8 instance. -/
theorem webp_c6_witness :
    (WebPEncoder.new_with_quality WebPQuality.lossless).writeHuffmanSection true false =
      writesFold (WebPEncoder.new_with_quality WebPQuality.lossless)
        (greenTreeWrites ++ redTreeWrites true ++ blueTreeWrites true ++
          alphaTreeWrites false ++ distanceTreeWrites) ∧
    greenTreeWrites = flatTreeWrites ∧
    redTreeWrites true =
      (if ColorType.Rgb8 = ColorType.Rgb8 ∨ ColorType.Rgb8 = ColorType.Rgba8 then flatTreeWrites
       else singleEntryWrites 0) ∧
    blueTreeWrites true =
      (if ColorType.Rgb8 = ColorType.Rgb8 ∨ ColorType.Rgb8 = ColorType.Rgba8 then flatTreeWrites
       else singleEntryWrites 0) ∧
    alphaTreeWrites false =
      (if ColorType.Rgb8 = ColorType.La8 ∨ ColorType.Rgb8 = ColorType.Rgba8 then flatTreeWrites
       else singleEntryWrites 255) ∧
    distanceTreeWrites = singleEntryWrites 0 :=
  webp_c6_tree_selection (WebPEncoder.new_with_quality WebPQuality.lossless) ColorType.Rgb8
    true false rfl

/-! C7: container framing -/

/-- C7: every successful lossless encode writes exactly `RIFF`, little-endian
`n + 12`, `WEBP`, `VP8L`, little-endian `n`, then the `n` sub-chunk bytes,
where the sub-chunk is the flushed bit-packer output padded with one zero
byte when odd, so `n` is always even. -/
theorem webp_c7_container (q : WebPQuality) (data : List Nat) (w h : Nat) (c : ColorType)
    (out : List Nat)
    (hok : (WebPEncoder.new_with_quality q).encode_lossless data w h c = Except.ok out) :
    ∃ chunk, chunk.length % 2 = 0 ∧ out = riffContainer chunk ∧
      ∃ ic ia, colorModes c = some (ic, ia) ∧
        chunk = padIfOdd
          ((WebPEncoder.new_with_quality q).losslessBody data w h c ic ia).chunk_buffer := by
  unfold WebPEncoder.encode_lossless at hok
  by_cases hval : w = 0 ∨ 16383 < w ∨ h = 0 ∨ 16383 < h ∨
      ¬ row_major_packed_fits c.channel_count w h data.length
  · rw [if_pos hval] at hok
    simp at hok
  · rw [if_neg hval] at hok
    unfold row_major_packed_fits at hval
    push_neg at hval
    obtain ⟨h1, h2, h3, h4, h5⟩ := hval
    cases hcm : colorModes c with
    | none =>
      rw [hcm] at hok
      simp at hok
    | some m =>
      obtain ⟨ic, ia⟩ := m
      rw [hcm] at hok
      simp only [Except.ok.injEq] at hok
      set B := ((WebPEncoder.new_with_quality q).losslessBody data w h c ic ia).chunk_buffer
        with hB
      have hblen : B.length ≤ 1073610790 := body_chunk_len q data w h c ic ia h2 h4 h5
      have hplen : (padIfOdd B).length ≤ 1073610791 :=
        le_trans (padIfOdd_len_le B) (by omega)
      have h32 : (2 : Nat) ^ 32 = 4294967296 := by norm_num
      have hm1 : (padIfOdd B).length % 2 ^ 32 = (padIfOdd B).length :=
        Nat.mod_eq_of_lt (by omega)
      have hm2 : ((padIfOdd B).length % 2 ^ 32 + 12) % 2 ^ 32 = (padIfOdd B).length + 12 := by
        rw [hm1]
        exact Nat.mod_eq_of_lt (by omega)
      have hpchunk : (if B.length % 2 = 1 then
          { (WebPEncoder.new_with_quality q).losslessBody data w h c ic ia with
            chunk_buffer := B ++ [0] }
          else (WebPEncoder.new_with_quality q).losslessBody data w h c ic ia).chunk_buffer =
          padIfOdd B := by
        by_cases hb : B.length % 2 = 1 <;> simp [padIfOdd, hb]
      refine ⟨padIfOdd B, padIfOdd_even B, ?_, ic, ia, rfl, rfl⟩
      rw [← hok]
      unfold riffContainer
      rw [hpchunk, hm2, hm1]

/-- C7 witness: the 1×1 L8 encode and its container decomposition. -/
theorem webp_c7_witness :
    ∃ chunk, chunk.length % 2 = 0 ∧
      [82, 73, 70, 70, 30, 0, 0, 0, 87, 69, 66, 80, 86, 80, 56, 76, 18, 0, 0, 0, 47, 0, 0, 0,
        0, 5, 4, 0, 0, 0, 144, 243, 143, 232, 127, 0, 0, 0] = riffContainer chunk ∧
      ∃ ic ia, colorModes ColorType.L8 = some (ic, ia) ∧
        chunk = padIfOdd
          ((WebPEncoder.new_with_quality WebPQuality.lossless).losslessBody [0] 1 1
            ColorType.L8 ic ia).chunk_buffer :=
  webp_c7_container WebPQuality.lossless [0] 1 1 ColorType.L8 _ (by decide)

/-! C8: lossy-path validation -/

/-- C8 (amended): for every lossy quality setting, `encode` first rejects
color descriptors other than Rgb8/Rgba8 with an unsupported-color error, and
for Rgb8/Rgba8 it returns dimension-mismatch exactly when width or height is
zero or the buffer length differs from `width * height * channel_count` —
there is no upper dimension bound on the lossy path, and this validation is
independent of the external encoder. -/
theorem lossy_validation_helper (native : NativeEncoder) (l : Nat) (data : List Nat)
    (w h : Nat) (c : ColorType) :
    (lossyLayout c = none →
      (WebPEncoder.new_with_quality (WebPQuality.lossy l)).encode native data w h c =
        Except.error (ImageError.unsupportedColor c)) ∧
    (∀ layout, lossyLayout c = some layout →
      ((WebPEncoder.new_with_quality (WebPQuality.lossy l)).encode native data w h c =
          Except.error ImageError.dimensionMismatch ↔
        (w = 0 ∨ h = 0 ∨ data.length ≠ w * h * c.channel_count))) := by
  constructor
  · intro hno
    simp [WebPEncoder.encode, WebPEncoder.new_with_quality, WebPQuality.lossy,
      WebPEncoder.lossyEncode, hno]
  · intro layout hsome
    simp only [WebPEncoder.encode, WebPEncoder.new_with_quality, WebPQuality.lossy,
      WebPEncoder.lossyEncode, hsome]
    by_cases hcond : w = 0 ∨ h = 0 ∨ ¬ row_major_packed_fits c.channel_count w h data.length
    · rw [if_pos hcond]
      unfold row_major_packed_fits at hcond
      constructor
      · intro _
        tauto
      · intro _
        rfl
    · rw [if_neg hcond]
      unfold row_major_packed_fits at hcond
      push_neg at hcond
      obtain ⟨hc1, hc2, hc3⟩ := hcond
      constructor
      · intro hcontra
        by_cases hemp : native data layout w h
            (Quality.Lossy (min (max (l % 256) WebPQuality.MIN) WebPQuality.MAX)) = [] <;>
          simp [hemp] at hcontra
      · intro hcontra
        exfalso
        rcases hcontra with hx | hx | hx <;> omega

/-- C8 (amended): see `lossy_validation_helper` for the proof. -/
theorem webp_c8_lossy_validation (native : NativeEncoder) (l : Nat) (data : List Nat)
    (w h : Nat) (c : ColorType) :
    (lossyLayout c = none →
      (WebPEncoder.new_with_quality (WebPQuality.lossy l)).encode native data w h c =
        Except.error (ImageError.unsupportedColor c)) ∧
    (∀ layout, lossyLayout c = some layout →
      ((WebPEncoder.new_with_quality (WebPQuality.lossy l)).encode native data w h c =
          Except.error ImageError.dimensionMismatch ↔
        (w = 0 ∨ h = 0 ∨ data.length ≠ w * h * c.channel_count))) :=
  lossy_validation_helper native l data w h c

/-- C8 counterexample: with an invalid width and an unsupported (grayscale)
color the lossy path reports unsupported-color, not the dimension-mismatch
the claimed validation order requires; and a 20000-pixel-wide image (outside
the claimed [1, 16384] bound) is not rejected as a dimension mismatch. -/
theorem webp_c8_counterexample :
    (WebPEncoder.new_with_quality (WebPQuality.lossy 80)).encode emptyNativeEncoder [] 0 0
        ColorType.L8 = Except.error (ImageError.unsupportedColor ColorType.L8) ∧
    (WebPEncoder.new_with_quality (WebPQuality.lossy 80)).encode emptyNativeEncoder [] 0 0
        ColorType.L8 ≠ Except.error ImageError.dimensionMismatch ∧
    (WebPEncoder.new_with_quality (WebPQuality.lossy 80)).encode emptyNativeEncoder
        (List.replicate 60000 0) 20000 1 ColorType.Rgb8 ≠
      Except.error ImageError.dimensionMismatch := by
  refine ⟨by decide, by decide, ?_⟩
  intro hcontra
  have hiff := (lossy_validation_helper emptyNativeEncoder 80 (List.replicate 60000 0) 20000 1
    ColorType.Rgb8).2 PixelLayout.Rgb rfl
  rcases hiff.mp hcontra with hx | hx | hx
  · omega
  · omega
  · exact hx (by rw [List.length_replicate]; norm_num [ColorType.channel_count])

/-- C8 witness: the Rgb8 zero-dimension instance. -/
theorem webp_c8_witness :
    (WebPEncoder.new_with_quality (WebPQuality.lossy 80)).encode emptyNativeEncoder [] 0 0
        ColorType.Rgb8 = Except.error ImageError.dimensionMismatch ↔
      ((0 : Nat) = 0 ∨ (0 : Nat) = 0 ∨
        ([] : List Nat).length ≠ 0 * 0 * ColorType.Rgb8.channel_count) :=
  (webp_c8_lossy_validation emptyNativeEncoder 80 [] 0 0 ColorType.Rgb8).2 PixelLayout.Rgb rfl

/-! C9: totality and absence of panics -/

/-- C9: for every buffer, dimensions, color descriptor and quality setting,
the encoder runs to completion without reaching any panic site: the checked
encoder (whose `none` marks a triggered panic site) returns exactly `some`
of the plain, total result.  Termination is by construction: all functions
of this embedding are structurally recursive. -/
theorem webp_c9_no_panic (native : NativeEncoder) (q : WebPQuality) (data : List Nat)
    (w h : Nat) (c : ColorType) :
    (WebPEncoder.new_with_quality q).encodeC native data w h c =
      some ((WebPEncoder.new_with_quality q).encode native data w h c) ∧
    WebPEncoder.new.encodeC native data w h c =
      some (WebPEncoder.new.encode native data w h c) :=
  ⟨encodeC_eq native q data w h c, encodeC_eq native WebPQuality.default data w h c⟩

/-! C10: the default quality -/

/-- C10: `WebPQuality::default()` is lossy quality 80, `WebPEncoder::new`
uses it, an encoder built with `new` (or any lossy quality) takes the lossy
path, and the lossless path runs exactly when the lossless quality is
supplied explicitly. -/
theorem webp_c10_default_quality :
    WebPQuality.default = WebPQuality.lossy 80 ∧
    WebPQuality.default.q = Quality.Lossy 80 ∧
    WebPEncoder.new = WebPEncoder.new_with_quality WebPQuality.default ∧
    (∀ (native : NativeEncoder) (data : List Nat) (w h : Nat) (c : ColorType),
      WebPEncoder.new.encode native data w h c =
        WebPEncoder.new.lossyEncode native data w h c) ∧
    (∀ (native : NativeEncoder) (l : Nat) (data : List Nat) (w h : Nat) (c : ColorType),
      (WebPEncoder.new_with_quality (WebPQuality.lossy l)).encode native data w h c =
        (WebPEncoder.new_with_quality (WebPQuality.lossy l)).lossyEncode native data w h c) ∧
    (∀ (native : NativeEncoder) (data : List Nat) (w h : Nat) (c : ColorType),
      (WebPEncoder.new_with_quality WebPQuality.lossless).encode native data w h c =
        (WebPEncoder.new_with_quality WebPQuality.lossless).encode_lossless data w h c) :=
  ⟨rfl, rfl, rfl, fun _ _ _ _ _ => rfl, fun _ _ _ _ _ _ => rfl, fun _ _ _ _ _ => rfl⟩
